import Mathlib

/-!
Verification development for the bibliography PDF fetcher (`fetch_pdfs.py`).

The pure core of the program (reference parsing, query building, signature
deduplication, path deduplication, message merging, result aggregation, the
download-completion detectors, and the phase orchestration of
`App._run_downloads`) is shallowly embedded below.  External effects
(Selenium browser calls, the network, `tkinter` prompts, the real
filesystem, `webbrowser`) are modelled as explicit oracle records
(`AutoEnv`, `ManualEnv`) supplying the outcome of each external call site,
and directory contents are modelled as lists of path strings.  Unicode NFKD
normalization inside `_sanitize_filename` is modelled as the identity
(exact on ASCII input), `str.lower` as ASCII lowering, and the cooperative
skip event as never set; no claim below depends on those aspects.
-/

namespace FetchPdfs

/-! ### Python-style character classes and string primitives (on `List Char`) -/

/-- Python regex `\s` / `str.strip` whitespace set. -/
def isPySpace (c : Char) : Bool :=
  c = ' ' || c = '\t' || c = '\n' || c = '\r' || c = '\x0b' || c = '\x0c'

/-- ASCII decimal digit, Python regex `\d` on the inputs in scope. -/
def isDigitCh (c : Char) : Bool := c.isDigit

/-- ASCII uppercase letter, regex class `[A-Z]`. -/
def isAsciiUpper (c : Char) : Bool := 'A' ≤ c && c ≤ 'Z'

/-- Letter class `[A-Za-zÀ-ÖØ-öø-ÿ]` used by the loose-lead lookahead. -/
def isLatinLetter (c : Char) : Bool :=
  ('A' ≤ c && c ≤ 'Z') || ('a' ≤ c && c ≤ 'z') ||
  ('\xC0' ≤ c && c ≤ '\xD6') || ('\xD8' ≤ c && c ≤ '\xF6') ||
  ('\xF8' ≤ c && c ≤ '\xFF')

/-- Word character for regex `\b` boundaries (`[A-Za-z0-9_]` plus the
Latin-1 letters appearing in the source's character classes). -/
def isWordCh (c : Char) : Bool :=
  c.isAlphanum || c = '_' || ('\xC0' ≤ c && c ≤ '\xD6') ||
  ('\xD8' ≤ c && c ≤ '\xF6') || ('\xF8' ≤ c && c ≤ '\xFF')

/-- Character class `[A-Za-zÀ-ÖØ-öø-ÿ'`-]` of the author-token patterns
(the backtick is written by code point). -/
def isAuthorCh (c : Char) : Bool :=
  isLatinLetter c || c = '\'' || c.toNat = 96 || c = '-'

/-- Python `str.strip()` on a character list. -/
def stripL (l : List Char) : List Char :=
  ((l.dropWhile isPySpace).reverse.dropWhile isPySpace).reverse

/-- Python `str.strip(chars)`. -/
def stripCharsL (chars : List Char) (l : List Char) : List Char :=
  ((l.dropWhile (· ∈ chars)).reverse.dropWhile (· ∈ chars)).reverse

/-- Python `str.rstrip(chars)`. -/
def rstripCharsL (chars : List Char) (l : List Char) : List Char :=
  (l.reverse.dropWhile (· ∈ chars)).reverse

/-- Worker for `collapseWsL`: `prevWs` records whether the previous kept
position was inside a whitespace run. -/
def collapseWsGo : Bool → List Char → List Char
  | _, [] => []
  | prevWs, c :: rest =>
    if isPySpace c then
      if prevWs then collapseWsGo true rest
      else ' ' :: collapseWsGo true rest
    else c :: collapseWsGo false rest

/-- Python `re.sub(r"\s+", " ", l)`: every maximal whitespace run becomes a
single space. -/
def collapseWsL (l : List Char) : List Char := collapseWsGo false l

/-- Python `str.lower()` (ASCII). -/
def lowerL (l : List Char) : List Char := l.map Char.toLower

/-- Python `str.splitlines()` worker; `cur` is the current line reversed. -/
def splitlinesGo : List Char → List Char → List (List Char)
  | cur, [] => [cur.reverse]
  | cur, '\r' :: '\n' :: rest =>
    cur.reverse :: (if rest.isEmpty then [] else splitlinesGo [] rest)
  | cur, '\n' :: rest =>
    cur.reverse :: (if rest.isEmpty then [] else splitlinesGo [] rest)
  | cur, '\r' :: rest =>
    cur.reverse :: (if rest.isEmpty then [] else splitlinesGo [] rest)
  | cur, c :: rest => splitlinesGo (c :: cur) rest

/-- Python `str.splitlines()` (line terminators `\n`, `\r\n`, `\r`). -/
def splitlinesL (l : List Char) : List (List Char) :=
  if l.isEmpty then [] else splitlinesGo [] l

/-- Python `" ".join(parts)`. -/
def joinSp (parts : List (List Char)) : List Char :=
  List.intercalate [' '] parts

/-- Python `str.split()` (split on whitespace runs, dropping empties). -/
def wordsGo : List Char → List Char → List (List Char)
  | cur, [] => if cur.isEmpty then [] else [cur.reverse]
  | cur, c :: rest =>
    if isPySpace c then
      if cur.isEmpty then wordsGo [] rest else cur.reverse :: wordsGo [] rest
    else wordsGo (c :: cur) rest

def wordsL (l : List Char) : List (List Char) := wordsGo [] l

/-- Count occurrences of a character, Python `str.count(c)`. -/
def countCh (c : Char) (l : List Char) : Nat := (l.filter (· = c)).length

/-- Leftmost index at which `pat` occurs as a sublist, Python `str.find`. -/
def indexOfSubGo (pat : List Char) : Nat → List Char → Option Nat
  | _, [] => if pat.isEmpty then some 0 else none
  | i, l@(_ :: rest) =>
    if pat.isPrefixOf l then some i else indexOfSubGo pat (i + 1) rest

def indexOfSubL (pat l : List Char) : Option Nat := indexOfSubGo pat 0 l

/-- Python `str.split(sep, 1)[0]` together with the remainder after `sep`. -/
def splitFirstSubL (pat l : List Char) : List Char × List Char :=
  match indexOfSubL pat l with
  | some i => (l.take i, l.drop (i + pat.length))
  | none => (l, [])

/-- Worker for `splitOnSubL`; `fuel` dominates the input length. -/
def splitSubGo (pat : List Char) : Nat → List Char → List Char → List (List Char)
  | 0, cur, l => [(cur.reverse ++ l)]
  | _ + 1, cur, [] => [cur.reverse]
  | fuel + 1, cur, l@(c :: rest) =>
    if pat.isPrefixOf l then
      cur.reverse :: splitSubGo pat fuel [] (l.drop pat.length)
    else splitSubGo pat fuel (c :: cur) rest

/-- Python `str.split(sep)` for a non-empty literal separator. -/
def splitOnSubL (pat l : List Char) : List (List Char) :=
  splitSubGo pat (l.length + 1) [] l

/-! ### Regex embeddings

Each pattern of the source is embedded as an explicit matcher.  `...MatchLen`
functions return the length of a match anchored at the head of the list (the
semantics of Python's leftmost-match with the backtracking behaviour worked
out for each pattern); `search` helpers scan left to right. -/

/-- Length matched by `REFERENCE_LEAD_PATTERN = ^\s*(?:\[\d+\]|\(\d+\)|\d+[.)])\s*`
anchored at the start, if any. -/
def refLeadLen (l : List Char) : Option Nat :=
  let ws1 := (l.takeWhile isPySpace).length
  let rest := l.drop ws1
  let core : Option Nat :=
    match rest with
    | '[' :: r2 =>
      let ds := (r2.takeWhile isDigitCh).length
      if ds = 0 then none else
        match r2.drop ds with
        | ']' :: _ => some (ds + 2)
        | _ => none
    | '(' :: r2 =>
      let ds := (r2.takeWhile isDigitCh).length
      if ds = 0 then none else
        match r2.drop ds with
        | ')' :: _ => some (ds + 2)
        | _ => none
    | _ =>
      let ds := (rest.takeWhile isDigitCh).length
      if ds = 0 then none else
        match rest.drop ds with
        | '.' :: _ => some (ds + 1)
        | ')' :: _ => some (ds + 1)
        | _ => none
  match core with
  | none => none
  | some n =>
    let ws2 := ((rest.drop n).takeWhile isPySpace).length
    some (ws1 + n + ws2)

/-- Length matched by `LOOSE_REFERENCE_LEAD_PATTERN = ^\s*\d+\s+(?=.*[A-Za-zÀ-ÖØ-öø-ÿ])`
anchored at the start, if any (the lookahead `.*` cannot cross a newline). -/
def looseLeadLen (l : List Char) : Option Nat :=
  let ws1 := (l.takeWhile isPySpace).length
  let rest := l.drop ws1
  let ds := (rest.takeWhile isDigitCh).length
  if ds = 0 then none else
    let rest2 := rest.drop ds
    let ws2 := (rest2.takeWhile isPySpace).length
    if ws2 = 0 then none else
      let tail := rest2.drop ws2
      if (tail.takeWhile (· ≠ '\n')).any isLatinLetter then
        some (ws1 + ds + ws2)
      else none

/-- Embedding of `_strip_reference_lead` (both anchored substitutions with
`count=1`, each followed by `strip()`). -/
def stripReferenceLeadL (l : List Char) : List Char :=
  let s1 := match refLeadLen l with
    | some n => l.drop n
    | none => l
  let s2 := stripL s1
  let s3 := match looseLeadLen s2 with
    | some n => s2.drop n
    | none => s2
  stripL s3

/-- Embedding of `_strip_reference_lead` on strings. -/
def strip_reference_lead (s : String) : String := ⟨stripReferenceLeadL s.data⟩

/-- Character allowed in a DOI body, regex class `[^\s"<>]`. -/
def isDoiBodyChar (c : Char) : Bool :=
  !(isPySpace c) && c ≠ '"' && c ≠ '<' && c ≠ '>'

/-- Length matched at the head by `DOI_PATTERN = 10\.\d{4,9}/[^\s"<>]+`. -/
def doiMatchLen : List Char → Option Nat
  | '1' :: '0' :: '.' :: rest =>
    let ds := (rest.takeWhile isDigitCh).length
    if 4 ≤ ds && ds ≤ 9 then
      match rest.drop ds with
      | '/' :: tail =>
        let body := (tail.takeWhile isDoiBodyChar).length
        if body = 0 then none else some (3 + ds + 1 + body)
      | _ => none
    else none
  | _ => none

/-- Matcher for `://` followed by `\S+`, the tail of `URL_PATTERN`. -/
def urlTailLen : List Char → Option Nat
  | ':' :: '/' :: '/' :: tail =>
    let body := (tail.takeWhile (fun c => !(isPySpace c))).length
    if body = 0 then none else some (3 + body)
  | _ => none

/-- Length matched at the head by `URL_PATTERN = https?://\S+` (IGNORECASE);
the optional greedy `s` is tried first. -/
def urlMatchLen (l : List Char) : Option Nat :=
  match l with
  | c1 :: c2 :: c3 :: c4 :: rest =>
    if c1.toLower = 'h' && c2.toLower = 't' && c3.toLower = 't' && c4.toLower = 'p' then
      match rest with
      | c5 :: rest2 =>
        if c5.toLower = 's' then
          match urlTailLen rest2 with
          | some k => some (5 + k)
          | none => match urlTailLen rest with
                    | some k => some (4 + k)
                    | none => none
        else
          match urlTailLen rest with
          | some k => some (4 + k)
          | none => none
      | [] => none
    else none
  | _ => none

/-- Generic leftmost search for an anchored matcher; returns the match as a
substring (`take len` at the match position). -/
def searchSub (matchLen : List Char → Option Nat) : List Char → Option (List Char)
  | [] => match matchLen [] with
          | some n => some (([] : List Char).take n)
          | none => none
  | l@(_ :: rest) =>
    match matchLen l with
    | some n => some (l.take n)
    | none => searchSub matchLen rest

/-- Leftmost `DOI_PATTERN` match (the matched text). -/
def doiSearch (l : List Char) : Option (List Char) := searchSub doiMatchLen l

/-- Leftmost `URL_PATTERN` match (the matched text). -/
def urlSearch (l : List Char) : Option (List Char) := searchSub urlMatchLen l

/-- Worker for `subAll`: removes every non-overlapping match, scanning left
to right (Python `re.sub(pat, "", s)`); `fuel` dominates the input length. -/
def subAllGo (matchLen : List Char → Option Nat) : Nat → List Char → List Char
  | 0, l => l
  | _ + 1, [] => []
  | fuel + 1, l@(c :: rest) =>
    match matchLen l with
    | some (n + 1) => subAllGo matchLen fuel (l.drop (n + 1))
    | _ => c :: subAllGo matchLen fuel rest

/-- Python `re.sub(pattern, "", l)` for a pattern that never matches empty. -/
def subAll (matchLen : List Char → Option Nat) (l : List Char) : List Char :=
  subAllGo matchLen (l.length + 1) l

/-- Word-boundary test between an optional previous character and the match. -/
def atBoundary (prev : Option Char) : Bool :=
  match prev with
  | none => true
  | some c => !(isWordCh c)

/-- Trailing `\b`: the next character (if any) is not a word character. -/
def boundaryAfter : List Char → Bool
  | [] => true
  | c :: _ => !(isWordCh c)

/-- Length matched at the head (given the previous character) by
`YEAR_PATTERN = \b(19|20)\d{2}\b`. -/
def yearMatchLen (prev : Option Char) : List Char → Option Nat
  | a :: b :: c :: d :: rest =>
    if atBoundary prev &&
       ((a = '1' && b = '9') || (a = '2' && b = '0')) &&
       isDigitCh c && isDigitCh d && boundaryAfter rest then
      some 4
    else none
  | _ => none

/-- Boundary-aware leftmost search returning the start index and length. -/
def searchBGo (matchLen : Option Char → List Char → Option Nat) :
    Option Char → Nat → List Char → Option (Nat × Nat)
  | prev, i, l =>
    match matchLen prev l with
    | some n => some (i, n)
    | none =>
      match l with
      | [] => none
      | c :: rest => searchBGo matchLen (some c) (i + 1) rest

def searchB (matchLen : Option Char → List Char → Option Nat)
    (l : List Char) : Option (Nat × Nat) :=
  searchBGo matchLen none 0 l

/-- Leftmost `YEAR_PATTERN` match: start index and matched text. -/
def yearSearch (l : List Char) : Option (Nat × List Char) :=
  match searchB yearMatchLen l with
  | some (i, n) => some (i, (l.drop i).take n)
  | none => none

/-- Dash class `[–-]` of `PAGES_PATTERN` (en dash or hyphen). -/
def isPagesDash (c : Char) : Bool := c = '–' || c = '-'

/-- Length matched at the head (given the previous character) by
`PAGES_PATTERN = \b(\d{1,4}\s*[–-]\s*\d{1,4})\b`. -/
def pagesMatchLen (prev : Option Char) (l : List Char) : Option Nat :=
  if !(atBoundary prev) then none else
  let d1 := (l.takeWhile isDigitCh).length
  if d1 = 0 || 4 < d1 then none else
  let r1 := l.drop d1
  let w1 := (r1.takeWhile isPySpace).length
  match r1.drop w1 with
  | dash :: r2 =>
    if isPagesDash dash then
      let w2 := (r2.takeWhile isPySpace).length
      let r3 := r2.drop w2
      let d2 := (r3.takeWhile isDigitCh).length
      if d2 = 0 || 4 < d2 then none else
      if boundaryAfter (r3.drop d2) then
        some (d1 + w1 + 1 + w2 + d2)
      else none
    else none
  | [] => none

/-- Leftmost `PAGES_PATTERN` match: the matched text (group 1). -/
def pagesSearch (l : List Char) : Option (List Char) :=
  match searchB pagesMatchLen l with
  | some (i, n) => some ((l.drop i).take n)
  | none => none

/-- Lookahead `(?=[,;]\s*(?:19|20)\d{2}\b)` of the journal pattern, checked
at a delimiter: `tail` is the text after the delimiter. -/
def journalYearLookahead (tail : List Char) : Bool :=
  let t := tail.dropWhile isPySpace
  match t with
  | a :: b :: c :: d :: rest =>
    ((a = '1' && b = '9') || (a = '2' && b = '0')) &&
    isDigitCh c && isDigitCh d && boundaryAfter rest
  | _ => false

/-- Attempt of `JOURNAL_BEFORE_YEAR_PATTERN = [,;]\s*([^,;]+?)(?=[,;]\s*(?:19|20)\d{2}\b)`
at a delimiter position; `rest` is the text after the opening `[,;]`.
The lazy group necessarily ends at the next delimiter; the greedy `\s*`
yields back just enough to keep the group non-empty. -/
def journalTryAt (rest : List Char) : Option (List Char) :=
  let content := rest.takeWhile (fun c => c ≠ ',' && c ≠ ';')
  if content.isEmpty then none else
  match rest.drop content.length with
  | _ :: tail =>
    if journalYearLookahead tail then
      let w := (content.takeWhile isPySpace).length
      some (content.drop (min w (content.length - 1)))
    else none
  | [] => none

/-- Leftmost `JOURNAL_BEFORE_YEAR_PATTERN` match (group 1). -/
def journalSearch : List Char → Option (List Char)
  | [] => none
  | c :: rest =>
    if c = ',' || c = ';' then
      match journalTryAt rest with
      | some g => some g
      | none => journalSearch rest
    else journalSearch rest

/-- Attempt of `TITLE_PATTERN = \.\s+([A-Z][^.]+?)\.\s+[A-Z]` just after a
dot; `rest` is the text after the opening `\.`. -/
def titleTryAt (rest : List Char) : Option (List Char) :=
  let w := (rest.takeWhile isPySpace).length
  if w = 0 then none else
  match rest.drop w with
  | p :: tail =>
    if isAsciiUpper p then
      let body := tail.takeWhile (· ≠ '.')
      if body.isEmpty then none else
      match tail.drop body.length with
      | '.' :: tail2 =>
        let u := (tail2.takeWhile isPySpace).length
        if u = 0 then none else
        match tail2.drop u with
        | q :: _ => if isAsciiUpper q then some (p :: body) else none
        | [] => none
      | _ => none
    else none
  | [] => none

/-- Leftmost `TITLE_PATTERN` match (group 1). -/
def titleSearch : List Char → Option (List Char)
  | [] => none
  | '.' :: rest =>
    match titleTryAt rest with
    | some g => some g
    | none => titleSearch rest
  | _ :: rest => titleSearch rest

/-- Match of `([A-Z][A-Za-zÀ-ÖØ-öø-ÿ'`-]+)$` anchored at this position:
an uppercase letter followed by one or more class characters reaching the
end of the string. -/
def authorEndTry : List Char → Option (List Char)
  | c :: rest =>
    if isAsciiUpper c && !rest.isEmpty && rest.all isAuthorCh then
      some (c :: rest)
    else none
  | [] => none

/-- Leftmost match of the author-surname pattern. -/
def authorEndSearch : List Char → Option (List Char)
  | [] => none
  | l@(_ :: rest) =>
    match authorEndTry l with
    | some g => some g
    | none => authorEndSearch rest

/-- Full-string match of `^[A-Z][A-Za-zÀ-ÖØ-öø-ÿ'`-]+,?\s*[A-Z]?\.?$`
(the "bare author token" filter of `build_search_query`). -/
def authorTokenMatch (l : List Char) : Bool :=
  match l with
  | c :: rest =>
    if isAsciiUpper c then
      let ltrs := (rest.takeWhile isAuthorCh).length
      if ltrs = 0 then false else
      let t0 := rest.drop ltrs
      let t1 := match t0 with
        | ',' :: r => r
        | _ => t0
      let t2 := t1.dropWhile isPySpace
      let t3 := match t2 with
        | u :: r => if isAsciiUpper u then r else t2
        | [] => t2
      let t4 := match t3 with
        | '.' :: r => r
        | _ => t3
      t4.isEmpty
    else false
  | [] => false

/-! ### Reference parsing (`extract_references`) -/

/-- Loop body of `extract_references`: `refs` are the emitted references,
`current` the accumulator of stripped lines of the open reference. -/
def extractRefsGo : List (List Char) → List (List Char) → List (List Char) →
    List (List Char)
  | refs, current, [] =>
    if current.isEmpty then refs else refs ++ [joinSp current]
  | refs, current, line :: rest =>
    let stripped := stripL line
    if stripped.isEmpty then
      if current.isEmpty then extractRefsGo refs current rest
      else extractRefsGo (refs ++ [joinSp current]) [] rest
    else
      if (refLeadLen stripped).isSome || (looseLeadLen stripped).isSome then
        let refs1 := if current.isEmpty then refs else refs ++ [joinSp current]
        extractRefsGo refs1 [stripReferenceLeadL stripped] rest
      else
        extractRefsGo refs (current ++ [stripped]) rest

/-- Embedding of `extract_references` on character lists. -/
def extractReferencesL (text : List Char) : List (List Char) :=
  extractRefsGo [] [] (splitlinesL text)

/-- Embedding of `extract_references`. -/
def extract_references (text : String) : List String :=
  (extractReferencesL text.data).map String.mk

/-- Specification device for the corrected parser description: how one raw
line is processed.  A blank line (after stripping) is dropped (`none`); a
line opening with a numbering lead starts a new group and loses its lead
(`some (true, ...)`); any other line keeps its stripped text
(`some (false, ...)`). -/
def processedLine (line : List Char) : Option (Bool × List Char) :=
  let stripped := stripL line
  if stripped.isEmpty then none
  else if (refLeadLen stripped).isSome || (looseLeadLen stripped).isSome then
    some (true, stripReferenceLeadL stripped)
  else
    some (false, stripped)

/-- Specification device: the groups of contiguous kept lines, split at
blank lines and in front of numbering-lead lines. -/
def refGroupsGo : List (List Char) → List (List Char) →
    List (List (List Char))
  | current, [] => if current.isEmpty then [] else [current]
  | current, line :: rest =>
    match processedLine line with
    | none =>
      if current.isEmpty then refGroupsGo [] rest
      else current :: refGroupsGo [] rest
    | some (true, v) =>
      if current.isEmpty then refGroupsGo [v] rest
      else current :: refGroupsGo [v] rest
    | some (false, v) => refGroupsGo (current ++ [v]) rest

/-- Specification device: the reference groups of a raw text. -/
def refGroups (text : List Char) : List (List (List Char)) :=
  refGroupsGo [] (splitlinesL text)

/-! ### Title, author, journal heuristics -/

/-- Loop of `derive_title` over the candidate segments: skip a segment with a
semicolon and at most three spaces; accept the first with at least three
words. -/
def segLoop : List (List Char) → List Char
  | [] => []
  | seg :: rest =>
    if 1 ≤ countCh ';' seg && countCh ' ' seg ≤ 3 then segLoop rest
    else if 3 ≤ (wordsL seg).length then seg
    else segLoop rest

/-- Embedding of `derive_title`. -/
def deriveTitleL (reference : List Char) : List Char :=
  let cleaned := stripReferenceLeadL reference
  if cleaned.isEmpty then [] else
  let preUrl := stripL (splitFirstSubL ('h' :: 't' :: 't' :: 'p' :: []) cleaned).1
  match titleSearch preUrl with
  | some g => stripL g
  | none =>
    let searchScope :=
      match yearSearch preUrl with
      | some (i, _) => rstripCharsL ('.' :: ',' :: ' ' :: ';' :: []) (preUrl.take i)
      | none => preUrl
    let segments :=
      ((splitOnSubL ('.' :: ' ' :: []) searchScope).map stripL).filter
        (fun s => !s.isEmpty)
    let cand0 := segLoop segments
    let cand1 :=
      if cand0.isEmpty then
        match segments with
        | s :: _ => s
        | [] => preUrl
      else cand0
    stripCharsL (' ' :: '.' :: ';' :: ':' :: ',' :: '-' :: []) cand1

def derive_title (reference : String) : String := ⟨deriveTitleL reference.data⟩

/-- Embedding of `_extract_first_author`. -/
def extractFirstAuthorL (reference : List Char) : List Char :=
  let cleaned := stripReferenceLeadL reference
  if cleaned.isEmpty then [] else
  let firstSegment := stripL (cleaned.takeWhile (· ≠ ','))
  if firstSegment.isEmpty then [] else
  match authorEndSearch firstSegment with
  | some g => g
  | none => []

/-- Embedding of `_extract_journal`. -/
def extractJournalL (reference : List Char) : List Char :=
  let cleaned := stripReferenceLeadL reference
  if cleaned.isEmpty then [] else
  let c1 := subAll doiMatchLen cleaned
  let c2 := subAll urlMatchLen c1
  match journalSearch c2 with
  | some g => stripCharsL (' ' :: '.' :: ',' :: ';' :: ':' :: '(' :: ')' :: []) g
  | none => []

/-! ### Query building and signatures -/

/-- Characters of `TRAILING_PUNCTUATION = ".,);:]\"'"`. -/
def trailingPunctuation : List Char :=
  '.' :: ',' :: ')' :: ';' :: ':' :: ']' :: '"' :: '\'' :: []

/-- Embedding of `_strip_trailing_punctuation`. -/
def stripTrailingPunctuationL (l : List Char) : List Char :=
  rstripCharsL trailingPunctuation l

/-- Worker for `dedupKeepFirst` with the set of already-kept keys. -/
def dedupKeepFirstGo (seen : List (List Char)) : List (List Char) →
    List (List Char)
  | [] => []
  | x :: rest =>
    if x ∈ seen then dedupKeepFirstGo seen rest
    else x :: dedupKeepFirstGo (x :: seen) rest

/-- Python `dict.fromkeys` order-preserving first-occurrence deduplication. -/
def dedupKeepFirst (l : List (List Char)) : List (List Char) :=
  dedupKeepFirstGo [] l

/-- Substring test, Python `a in b`. -/
def containsSub (pat l : List Char) : Bool := (indexOfSubL pat l).isSome

/-- Component assembly of the free-text branch of `build_search_query`:
the normalized reference, the validated title, the journal fragment, the
year, the page token and the first author's surname, in order. -/
def buildQueryComponents (reference cleaned : List Char) : List (List Char) :=
  let normalizedReference := stripL (collapseWsL cleaned)
  let comps0 : List (List Char) :=
    if normalizedReference.isEmpty then [] else [normalizedReference]
  let title := stripL (deriveTitleL reference)
  let titleIsValid :=
    !title.isEmpty && 8 ≤ title.length && !(title.contains ',') &&
      !(authorTokenMatch title)
  let comps1 := comps0 ++ (if titleIsValid then [title] else [])
  let journal := extractJournalL reference
  let comps2 := comps1 ++
    (if !journal.isEmpty &&
        (!titleIsValid || !(containsSub (lowerL journal) (lowerL title))) then
      [journal]
    else [])
  let comps3 := comps2 ++
    (match yearSearch cleaned with
     | some (_, y) => [y]
     | none => [])
  let comps4 := comps3 ++
    (match pagesSearch cleaned with
     | some g => [g.filter (· ≠ ' ')]
     | none => [])
  let author := extractFirstAuthorL reference
  comps4 ++ (if author.isEmpty then [] else [author])

/-- Embedding of `build_search_query`. -/
def buildSearchQueryL (reference : List Char) : List Char :=
  let cleaned := stripReferenceLeadL reference
  if cleaned.isEmpty then reference else
  match doiSearch cleaned with
  | some m => stripTrailingPunctuationL m
  | none =>
  match urlSearch cleaned with
  | some m => stripTrailingPunctuationL m
  | none =>
    let components := buildQueryComponents reference cleaned
    if components.isEmpty then cleaned else joinSp (dedupKeepFirst components)

def build_search_query (reference : String) : String :=
  ⟨buildSearchQueryL reference.data⟩

/-- Embedding of `build_reference_signature`. -/
def buildReferenceSignatureL (reference title : List Char) :
    Option (List Char) :=
  let cleaned := stripReferenceLeadL reference
  if cleaned.isEmpty then none else
  match doiSearch cleaned with
  | some m =>
    some (('d' :: 'o' :: 'i' :: ':' :: []) ++ lowerL (stripTrailingPunctuationL m))
  | none =>
  match urlSearch cleaned with
  | some m =>
    some (('u' :: 'r' :: 'l' :: ':' :: []) ++ lowerL (stripTrailingPunctuationL m))
  | none =>
    let normalizedTitle := lowerL (stripL (collapseWsL title))
    if !normalizedTitle.isEmpty then
      some (('t' :: 'i' :: 't' :: 'l' :: 'e' :: ':' :: []) ++ normalizedTitle)
    else
      let normalizedReference := lowerL (stripL (collapseWsL cleaned))
      if normalizedReference.isEmpty then none else some normalizedReference

def build_reference_signature (reference title : String) : Option String :=
  (buildReferenceSignatureL reference.data title.data).map String.mk

/-! ### Filename sanitization -/

/-- Valid filename character, regex class `[A-Za-z0-9._-]`. -/
def isValidFilenameCh (c : Char) : Bool :=
  ('A' ≤ c && c ≤ 'Z') || ('a' ≤ c && c ≤ 'z') || ('0' ≤ c && c ≤ '9') ||
  c = '.' || c = '_' || c = '-'

/-- Worker replacing each maximal run of invalid characters by `_`
(`INVALID_FILENAME_CHARS.sub("_", s)`). -/
def replaceInvalidGo : Bool → List Char → List Char
  | _, [] => []
  | prevBad, c :: rest =>
    if isValidFilenameCh c then c :: replaceInvalidGo false rest
    else if prevBad then replaceInvalidGo true rest
    else '_' :: replaceInvalidGo true rest

/-- Worker collapsing runs of underscores (`re.sub("_+", "_", s)`). -/
def collapseUnderscoreGo : Bool → List Char → List Char
  | _, [] => []
  | prevU, c :: rest =>
    if c = '_' then
      if prevU then collapseUnderscoreGo true rest
      else '_' :: collapseUnderscoreGo true rest
    else c :: collapseUnderscoreGo false rest

/-- Embedding of `_sanitize_filename`.  The NFKD normalization and
combining-mark removal of the source are modelled as the identity (exact on
ASCII input). -/
def sanitizeFilenameL (name : List Char) : List Char :=
  let withoutMarks := stripL name
  let sanitized := replaceInvalidGo false withoutMarks
  stripCharsL ('.' :: '_' :: []) (collapseUnderscoreGo false sanitized)

def sanitize_filename (name : String) : String := ⟨sanitizeFilenameL name.data⟩

/-! ### Failure-message merging -/

/-- Embedding of `_merge_failure_messages`. -/
def mergeFailureMessages (initial retry : String) : String :=
  let parts : List String :=
    (if initial ≠ "" then ["initial attempt: " ++ initial] else []) ++
    (if retry ≠ "" then ["retry attempt: " ++ retry] else [])
  if parts.isEmpty then "" else String.intercalate "; " parts

/-- Embedding of `App._append_manual_note`. -/
def appendManualNote (previous note : String) : String :=
  if previous ≠ "" then previous ++ "; " ++ note else note

/-! ### Data model -/

deriving instance DecidableEq for Except

/-- Embedding of the `DownloadResult` dataclass. -/
structure DownloadResult where
  target : String
  success : Bool
  message : String
  destination : Option String := none
  used_filename : Option String := none
deriving DecidableEq, Repr

/-- Embedding of the `ReferenceTask` dataclass. -/
structure ReferenceTask where
  index : Nat
  reference : String
  output_name : String
  preview : String
  duplicate_of : Option Nat := none
deriving DecidableEq, Repr

/-- Embedding of the `ManualTargets` dataclass. -/
structure ManualTargets where
  query_url : String
  article_url : Option String
  pdf_url : Option String
  title : Option String := none
deriving DecidableEq, Repr

/-! ### Path manipulation and the filesystem model

A directory's contents are modelled as the list of path strings that exist;
`pathlib` accessors are embedded below (`Path.stem`, `Path.suffix`,
`Path.with_name` semantics). -/

/-- Split a path into the directory part (with its trailing slash) and the
final component. -/
def splitLastSlashL (p : List Char) : List Char × List Char :=
  let nameRev := p.reverse.takeWhile (· ≠ '/')
  (p.take (p.length - nameRev.length), nameRev.reverse)

/-- Length of the `pathlib` suffix of a final component, dot included
(`0` when there is none: no dot, a leading dot only, or a trailing dot). -/
def nameSuffixLen (name : List Char) : Nat :=
  let afterDot := (name.reverse.takeWhile (· ≠ '.')).length
  if afterDot = name.length then 0
  else
    let i := name.length - 1 - afterDot
    if 0 < i && i < name.length - 1 then afterDot + 1 else 0

/-- Embedding of `pathlib.Path.suffix`. -/
def pathSuffix (p : String) : String :=
  let name := (splitLastSlashL p.data).2
  ⟨name.drop (name.length - nameSuffixLen name)⟩

/-- Embedding of `pathlib.Path.stem`. -/
def pathStem (p : String) : String :=
  let name := (splitLastSlashL p.data).2
  ⟨name.take (name.length - nameSuffixLen name)⟩

/-- Directory part of a path, trailing slash included. -/
def pathDir (p : String) : String := ⟨(splitLastSlashL p.data).1⟩

/-- Candidate path tried by `_dedupe_path` at counter `k`:
`path.with_name(f"{path.stem}_{k}{path.suffix}")`. -/
def dedupeCandidate (p : String) (k : Nat) : String :=
  pathDir p ++ pathStem p ++ "_" ++ Nat.repr k ++ pathSuffix p

/-- Worker of `_dedupe_path`; the fuel dominates the number of loop
iterations ever needed (the pigeonhole bound proved below). -/
def dedupeGo (fs : List String) (p : String) : Nat → Nat → String → String
  | 0, _, cur => cur
  | fuel + 1, k, cur =>
    if cur ∈ fs then dedupeGo fs p fuel (k + 1) (dedupeCandidate p k)
    else cur

/-- Embedding of `_dedupe_path` against directory contents `fs`. -/
def dedupePath (fs : List String) (p : String) : String :=
  dedupeGo fs p (fs.length + 1) 1 p

/-! ### Download-completion detectors -/

/-- Observation of one file in a directory listing: its name and the size
a `stat` call would report at that moment. -/
structure FileObs where
  name : String
  size : Nat
deriving DecidableEq, Repr

/-- Python `str.endswith`. -/
def pyEndsWith (s sfx : String) : Bool := sfx.data.isSuffixOf s.data

/-- Candidate filter of `PDFDownloader._wait_for_new_file`:
`candidate.suffix.lower() == ".pdf" and not candidate.name.endswith(".part")`. -/
def isPdfNonPart (name : String) : Bool :=
  lowerL (pathSuffix name).data = ".pdf".data && !(pyEndsWith name ".part")

/-- Embedding of `PDFDownloader._wait_for_new_file`: each element of
`polls` is the directory listing seen at one poll tick; the loop returns
the first file that is new relative to `existing` and passes the
pdf/non-partial filter, and times out when the polls are exhausted.
The skip event is modelled as never set. -/
def waitForNewFile (existing : List String) :
    List (List String) → Option String
  | [] => none
  | poll :: rest =>
    match poll.find? (fun n => !(existing.contains n) && isPdfNonPart n) with
    | some f => some f
    | none => waitForNewFile existing rest

/-- Variant of `waitForNewFile` over listings that carry sizes, which the
source never reads; used to state the size-stability claim about it. -/
def waitForNewFileObs (existing : List String)
    (polls : List (List FileObs)) : Option String :=
  waitForNewFile existing (polls.map (List.map FileObs.name))

/-- Association-list lookup for the tracker dictionaries. -/
def lookupA (m : List (String × Nat)) (k : String) : Option Nat :=
  match m.find? (fun e => e.1 = k) with
  | some e => some e.2
  | none => none

/-- Association-list update for the tracker dictionaries. -/
def setA (m : List (String × Nat)) (k : String) (v : Nat) :
    List (String × Nat) :=
  (k, v) :: m.filter (fun e => e.1 ≠ k)

/-- Inner candidate loop of `wait_for_manual_pdf` over one poll's listing:
threads `size_tracker` and `stable_counts` and returns the first file whose
stability count reaches 1. -/
def manualScan (existing : List String) :
    List (String × Nat) → List (String × Nat) → List FileObs →
    Option String × List (String × Nat) × List (String × Nat)
  | tracker, stables, [] => (none, tracker, stables)
  | tracker, stables, f :: rest =>
    if existing.contains f.name then manualScan existing tracker stables rest
    else
      let stables1 :=
        match lookupA tracker f.name with
        | some prev =>
          if f.size = prev then
            setA stables f.name ((match lookupA stables f.name with
              | some s => s
              | none => 0) + 1)
          else setA stables f.name 0
        | none => setA stables f.name 0
      let tracker1 := setA tracker f.name f.size
      match lookupA stables1 f.name with
      | some (_ + 1) => (some f.name, tracker1, stables1)
      | _ => manualScan existing tracker1 stables1 rest

/-- Poll loop of `wait_for_manual_pdf`. -/
def manualLoop (existing : List String) :
    List (String × Nat) → List (String × Nat) → List (List FileObs) →
    Option String
  | _, _, [] => none
  | tracker, stables, poll :: rest =>
    let cands := poll.filter (fun f => pyEndsWith f.name ".pdf")
    match manualScan existing tracker stables cands with
    | (some f, _, _) => some f
    | (none, tracker1, stables1) => manualLoop existing tracker1 stables1 rest

/-- Embedding of `wait_for_manual_pdf`: `existing` is the resolved
pre-trigger snapshot, each element of `polls` one later directory listing
(the `glob("*.pdf")` filter and the size observed by `stat` are part of the
model; path resolution is the identity and the skip event never set). -/
def waitForManualPdf (existing : List String)
    (polls : List (List FileObs)) : Option String :=
  manualLoop existing [] [] polls

/-! ### Failure report and PDF stitching -/

/-- Lines written by `create_failure_report` (1-based enumeration). -/
def reportLines : Nat → List DownloadResult → List String
  | _, [] => []
  | idx, f :: rest =>
    ([Nat.repr idx ++ ". " ++ f.target] ++
      (if f.message ≠ "" then ["   Reason: " ++ f.message] else []) ++ [""]) ++
    reportLines (idx + 1) rest

/-- Embedding of `create_failure_report`: returns the report path (if one
was written), its lines, and the directory contents afterwards. -/
def createFailureReport (destination : String)
    (failures : List DownloadResult) (fs : List String) :
    Option String × List String × List String :=
  if failures.isEmpty then (none, [], fs)
  else
    let reportPath := dedupePath fs (destination ++ "/missing_pdfs.txt")
    (some reportPath, reportLines 1 failures, reportPath :: fs)

/-- Embedding of `stitch_pdfs`: `mergerAvailable` models
`PDF_MERGER_AVAILABLE`, `destMkdirErr` the `mkdir` failure branch and
`mergeErr` an exception from the external `PdfMerger` (in which case the
partial file is removed again, leaving `fs` unchanged).  Returns the merged
path, the skip/failure message and the directory contents afterwards. -/
def stitchPdfs (pdfFiles : List String) (destinationDir : String)
    (fs : List String) (mergerAvailable : Bool)
    (destMkdirErr : Option String) (mergeErr : Option String) :
    Option String × Option String × List String :=
  let validFiles := pdfFiles.filter (fun p => fs.contains p)
  if validFiles.isEmpty then (none, none, fs)
  else if !mergerAvailable then
    (none, some "Install PyPDF2 to enable combined PDF output.", fs)
  else
    match destMkdirErr with
    | some e =>
      (none, some ("Failed to prepare destination for combined PDF (" ++ e ++ ")"), fs)
    | none =>
      let mergedPath := dedupePath fs (destinationDir ++ "/combined_references.pdf")
      match mergeErr with
      | some e => (none, some ("Failed to create combined PDF (" ++ e ++ ")"), fs)
      | none => (some mergedPath, none, mergedPath :: fs)

/-! ### The automated download attempt (`PDFDownloader.download`)

Every external interaction of one `download` call is supplied by an
`AutoEnv` record, one field per call site, in program order.  An outcome a
`download` handler catches becomes a failure `DownloadResult`; an exception
no handler catches (the `link.click()` fallback of `_open_article_link`, or
`shutil.move` at the end) escapes as `Except.error` and aborts the run. -/

/-- Outcome of `_search_reference` (challenge handling included: its
timeout raises a `TimeoutException`, a `WebDriverException` subclass). -/
inductive SearchStep where
  | ok
  | skip
  | wdErr (msg : String)
deriving DecidableEq, Repr

/-- Outcome of `_get_first_result`. -/
inductive FirstResultStep where
  | ok
  | skip
  | timeout
deriving DecidableEq, Repr

/-- Outcome of `_extract_pdf_link` on the result block. -/
inductive PdfLinkStep where
  | found
  | absent
  | wdErr (msg : String)
deriving DecidableEq, Repr

/-- Outcome of `_open_article_link`: a `WebDriverException` raised by the
`link.click()` fallback escapes the `download` call. -/
inductive OpenArticleStep where
  | opened (newTab : Bool)
  | skip
  | escape (msg : String)
deriving DecidableEq, Repr

/-- Outcome of `_wait_for_pdf_link` on the article page. -/
inductive PageLinkStep where
  | found
  | skip
  | timeout
deriving DecidableEq, Repr

/-- Oracle for the external interactions of one `download` call (the
defaults describe an untroubled successful attempt and are overridden per
scenario). -/
structure AutoEnv where
  existing : List String := []
  search : SearchStep := SearchStep.ok
  firstResult : FirstResultStep := FirstResultStep.ok
  resultTitle : String := ""
  pdfLink : PdfLinkStep := PdfLinkStep.found
  articleLinkPresent : Bool := true
  openArticle : OpenArticleStep := OpenArticleStep.opened false
  pageLink : PageLinkStep := PageLinkStep.found
  triggerErr : Option String := none
  polls : List (List String) := [["download.pdf"]]
  statSize : Except String Nat := Except.ok 1
  moveErr : Option String := none
deriving Repr

/-- Outcome of one `download` call: the result or an escaping exception,
the files deleted, and the destination directory contents afterwards. -/
structure DLOut where
  result : Except String DownloadResult
  deleted : List String
  fs : List String
deriving Repr

/-- Embedding of `PDFDownloader.download` against an `AutoEnv`;
`fs` is the contents of `final_dir`. -/
def downloadRun (env : AutoEnv) (reference outputName finalDir : String)
    (fs : List String) : DLOut :=
  let fail : String → DLOut := fun msg =>
    ⟨Except.ok ⟨reference, false, msg, none, none⟩, [], fs⟩
  match env.search with
  | SearchStep.skip => fail "Skipped by user"
  | SearchStep.wdErr e => fail ("Failed to open Google Scholar: " ++ e)
  | SearchStep.ok =>
  match env.firstResult with
  | FirstResultStep.skip => fail "Skipped by user"
  | FirstResultStep.timeout => fail "No Google Scholar results were found"
  | FirstResultStep.ok =>
  match env.pdfLink with
  | PdfLinkStep.wdErr e => fail ("Unable to inspect the first result: " ++ e)
  | pdfStep =>
  let linkResult : Except DLOut Unit :=
    match pdfStep with
    | PdfLinkStep.found => Except.ok ()
    | _ =>
      if !env.articleLinkPresent then
        Except.error (fail "First result is missing an article link to follow")
      else
        match env.openArticle with
        | OpenArticleStep.skip => Except.error (fail "Skipped by user")
        | OpenArticleStep.escape e => Except.error ⟨Except.error e, [], fs⟩
        | OpenArticleStep.opened _ =>
          match env.pageLink with
          | PageLinkStep.skip => Except.error (fail "Skipped by user")
          | PageLinkStep.timeout =>
            Except.error (fail "Could not locate a PDF link on the article page")
          | PageLinkStep.found => Except.ok ()
  match linkResult with
  | Except.error out => out
  | Except.ok _ =>
  match env.triggerErr with
  | some e => fail ("Failed to trigger PDF download: " ++ e)
  | none =>
  match waitForNewFile env.existing env.polls with
  | none => fail "Download did not complete in time"
  | some downloaded =>
  match env.statSize with
  | Except.error e =>
    ⟨Except.ok ⟨reference, false, "Could not read downloaded PDF (" ++ e ++ ")",
      none, none⟩, [downloaded], fs⟩
  | Except.ok 0 =>
    ⟨Except.ok ⟨reference, false, "Downloaded PDF was empty", none, none⟩,
      [downloaded], fs⟩
  | Except.ok (_ + 1) =>
    let sanitizedTitle : String :=
      if env.resultTitle ≠ "" then ⟨(sanitizeFilenameL env.resultTitle.data).take 150⟩
      else ""
    let finalName := if sanitizedTitle ≠ "" then sanitizedTitle else outputName
    let destination := dedupePath fs (finalDir ++ "/" ++ finalName ++ ".pdf")
    match env.moveErr with
    | some e => ⟨Except.error e, [], fs⟩
    | none =>
      ⟨Except.ok ⟨reference, true, "Downloaded", some destination,
        some (pathStem destination)⟩, [], destination :: fs⟩

/-! ### Task construction (`App._run_downloads`, lines 1125-1141) -/

/-- Python `f"{n:03d}"`. -/
def pad3 (n : Nat) : String :=
  if n < 10 then "00" ++ Nat.repr n
  else if n < 100 then "0" ++ Nat.repr n
  else Nat.repr n

/-- Worker for `buildTasks`: `seen` is the `seen_signatures` map. -/
def buildTasksGo : Nat → List (String × Nat) → List String →
    List ReferenceTask
  | _, _, [] => []
  | index, seen, reference :: rest =>
    let title := derive_title reference
    let sanitizedTitle : String :=
      if title ≠ "" then ⟨(sanitizeFilenameL title.data).take 150⟩ else ""
    let outputName :=
      if sanitizedTitle ≠ "" then sanitizedTitle
      else "reference_" ++ pad3 index
    let preview : String :=
      if reference.length ≤ 80 then reference
      else (⟨reference.data.take 77⟩ : String) ++ "..."
    match build_reference_signature reference title with
    | some sig =>
      match seen.find? (fun e => e.1 = sig) with
      | some e =>
        ⟨index, reference, outputName, preview, some e.2⟩ ::
          buildTasksGo (index + 1) seen rest
      | none =>
        ⟨index, reference, outputName, preview, none⟩ ::
          buildTasksGo (index + 1) ((sig, index) :: seen) rest
    | none =>
      ⟨index, reference, outputName, preview, none⟩ ::
        buildTasksGo (index + 1) seen rest

/-- Embedding of the task-construction loop of `App._run_downloads`. -/
def buildTasks (references : List String) : List ReferenceTask :=
  buildTasksGo 1 [] references

/-- Recomputed signature of a task (its reference is stored verbatim, so
this is exactly the signature the deduplication computed for it). -/
def taskSignature (t : ReferenceTask) : Option String :=
  build_reference_signature t.reference (derive_title t.reference)

/-- Result recorded for a duplicate task from its original's current
result slot (`App._run_downloads`, lines 1161-1192). -/
def dupResult (task : ReferenceTask) (k : Nat)
    (orig : Option DownloadResult) : DownloadResult :=
  match orig with
  | some r =>
    if r.success then
      ⟨task.reference, r.success,
        "Duplicate of entry " ++ Nat.repr k ++ "; reused downloaded file",
        r.destination, r.used_filename⟩
    else
      let reason := if r.message ≠ "" then r.message else "original attempt failed"
      ⟨task.reference, r.success,
        "Duplicate of entry " ++ Nat.repr k ++ "; original failed: " ++ reason,
        r.destination, r.used_filename⟩
  | none =>
    ⟨task.reference, false,
      "Duplicate of entry " ++ Nat.repr k ++ "; original result unavailable",
      none, none⟩

/-! ### Phase 1 (first pass) and Phase 2 (retry) -/

/-- State threaded through the first pass: the result slots, the retry
candidates, the indices attempted, and the destination contents. -/
structure Phase1State where
  res : List (Option DownloadResult)
  cands : List (Nat × ReferenceTask × DownloadResult)
  attempts : List Nat
  fs : List String
deriving DecidableEq, Repr

/-- Embedding of the Phase-1 loop of `App._run_downloads`: duplicates copy
the original slot's current result, other tasks run `download`; an escaping
exception aborts with the slots filled so far. -/
def phase1 (world : Nat → Nat → AutoEnv) (destination : String) :
    List ReferenceTask → Phase1State →
    Except (String × Phase1State) Phase1State
  | [], st => Except.ok st
  | task :: rest, st =>
    match task.duplicate_of with
    | some k =>
      let orig : Option DownloadResult :=
        match st.res[k - 1]? with
        | some (some r) => some r
        | _ => none
      phase1 world destination rest
        { st with res := st.res.set (task.index - 1) (some (dupResult task k orig)) }
    | none =>
      let out := downloadRun (world 1 task.index) task.reference
        task.output_name destination st.fs
      match out.result with
      | Except.error e =>
        Except.error (e, { st with attempts := st.attempts ++ [task.index] })
      | Except.ok r =>
        phase1 world destination rest
          { res := st.res.set (task.index - 1) (some r),
            cands := if !r.success then st.cands ++ [(task.index - 1, task, r)]
                     else st.cands,
            attempts := st.attempts ++ [task.index],
            fs := out.fs }

/-- State threaded through the retry pass. -/
structure Phase2State where
  res : List (Option DownloadResult)
  attempts : List Nat
  succ : List ReferenceTask
  fs : List String
deriving DecidableEq, Repr

/-- Embedding of the Phase-2 (retry) loop of `App._run_downloads`:
each candidate that is not a duplicate is re-run once; a success replaces
the slot with message `"Downloaded on retry"`, a failure with the merged
failure messages. -/
def phase2 (world : Nat → Nat → AutoEnv) (destination : String) :
    List (Nat × ReferenceTask × DownloadResult) → Phase2State →
    Except (String × Phase2State) Phase2State
  | [], st => Except.ok st
  | (slot, task, firstResult) :: rest, st =>
    if task.duplicate_of.isSome then phase2 world destination rest st
    else
      let out := downloadRun (world 2 task.index) task.reference
        task.output_name destination st.fs
      match out.result with
      | Except.error e =>
        Except.error (e, { st with attempts := st.attempts ++ [task.index] })
      | Except.ok r2 =>
        if r2.success then
          phase2 world destination rest
            { res := st.res.set slot (some { r2 with message := "Downloaded on retry" }),
              attempts := st.attempts ++ [task.index],
              succ := st.succ ++ [task],
              fs := out.fs }
        else
          phase2 world destination rest
            { res := st.res.set slot
                (some { r2 with message := mergeFailureMessages firstResult.message r2.message }),
              attempts := st.attempts ++ [task.index],
              succ := st.succ,
              fs := out.fs }

/-! ### Phase 3 (manual fallback) -/

/-- Oracle for the external interactions of one `_perform_manual_download`
call: the confirmation prompt, the resolved targets (network), the
`webbrowser.open_new_tab` outcome per URL, the downloads-directory
snapshot and polls, the `stat` of the found file and the final move. -/
structure ManualEnv where
  promptAnswer : Bool
  targets : ManualTargets
  openErr : String → Option String
  existingPdfs : List String
  polls : List (List FileObs)
  statSize : Except String Nat
  moveErr : Option String

/-- Embedding of `App._perform_manual_download`: returns the result, the
updated `_manual_prompt_acknowledged` flag and the destination contents. -/
def performManualDownload (env : ManualEnv) (autoOpen : Bool) (ack : Bool)
    (task : ReferenceTask) (destination previousMessage : String)
    (fs : List String) : DownloadResult × Bool × List String :=
  let proceed := if ack then true else env.promptAnswer
  let ack1 := if proceed then true else ack
  if !proceed then
    (⟨task.reference, false,
      appendManualNote previousMessage "Manual fallback skipped by user",
      none, none⟩, ack1, fs)
  else
    let targets := env.targets
    let autoTargets : List (String × String) :=
      (match targets.pdf_url with
       | some p => [("PDF", p)]
       | none => []) ++
      (match targets.article_url with
       | some a => if some a ≠ targets.pdf_url then [("article", a)] else []
       | none => [])
    let step : Bool × List String → String × String → Bool × List String :=
      fun acc t =>
        match env.openErr t.2 with
        | none =>
          (true, acc.2 ++
            ["Opened " ++ (⟨lowerL t.1.data⟩ : String) ++ " link automatically"])
        | some e =>
          (acc.1, acc.2 ++
            ["Automatic " ++ (⟨lowerL t.1.data⟩ : String) ++ " open failed (" ++ e ++ ")"])
    let openState := if autoOpen then autoTargets.foldl step (false, []) else (false, [])
    let opened := openState.1
    let autoNotes := openState.2
    match (if !opened then env.openErr targets.query_url else none) with
    | some e =>
      (⟨task.reference, false,
        appendManualNote previousMessage ("Could not open browser (" ++ e ++ ")"),
        none, none⟩, ack1, fs)
    | none =>
      let prev1 :=
        if !autoNotes.isEmpty then
          appendManualNote previousMessage (String.intercalate "; " autoNotes)
        else previousMessage
      match waitForManualPdf env.existingPdfs env.polls with
      | none =>
        (⟨task.reference, false, appendManualNote prev1 "Manual fallback timed out",
          none, none⟩, ack1, fs)
      | some _manualFile =>
        match env.statSize with
        | Except.error e =>
          (⟨task.reference, false,
            appendManualNote prev1 ("Manual download could not be read (" ++ e ++ ")"),
            none, none⟩, ack1, fs)
        | Except.ok 0 =>
          (⟨task.reference, false,
            appendManualNote prev1 "Manual download appeared empty",
            none, none⟩, ack1, fs)
        | Except.ok (_ + 1) =>
          let preferredName :=
            match targets.title with
            | some t =>
              let s : String := ⟨(sanitizeFilenameL t.data).take 150⟩
              if s ≠ "" then s else task.output_name
            | none => task.output_name
          let destinationPath :=
            dedupePath fs (destination ++ "/" ++ preferredName ++ ".pdf")
          match env.moveErr with
          | some e =>
            (⟨task.reference, false,
              appendManualNote prev1 ("Could not move manual download (" ++ e ++ ")"),
              none, none⟩, ack1, fs)
          | none =>
            (⟨task.reference, true, "Downloaded manually", some destinationPath,
              some (pathStem destinationPath)⟩, ack1, destinationPath :: fs)

/-- Pending collection of `App._run_manual_fallback`: the non-duplicate
indices whose current result is a failure. -/
def collectPending : Nat → List ReferenceTask → List (Option DownloadResult) →
    List (Nat × ReferenceTask × DownloadResult)
  | _, [], _ => []
  | _, _ :: _, [] => []
  | idx, task :: ts, r :: rs =>
    let rest := collectPending (idx + 1) ts rs
    if task.duplicate_of.isSome then rest
    else
      match r with
      | some dr => if !dr.success then (idx, task, dr) :: rest else rest
      | none => rest

/-- Output of the manual-fallback phase. -/
structure ManualPhaseOut where
  res : List (Option DownloadResult)
  attempts : List Nat
  succ : List ReferenceTask
  fs : List String
deriving DecidableEq, Repr

/-- Per-item loop of `App._run_manual_fallback`, threading the
acknowledged flag. -/
def manualFold (menv : Nat → ManualEnv) (autoOpen : Bool)
    (destination : String) :
    List (Nat × ReferenceTask × DownloadResult) → Bool → ManualPhaseOut →
    ManualPhaseOut
  | [], _, st => st
  | (idx, task, previous) :: rest, ack, st =>
    let out := performManualDownload (menv task.index) autoOpen ack task
      destination previous.message st.fs
    manualFold menv autoOpen destination rest out.2.1
      { res := st.res.set idx (some out.1),
        attempts := st.attempts ++ [task.index],
        succ := if out.1.success then st.succ ++ [task] else st.succ,
        fs := out.2.2 }

/-- Embedding of `App._run_manual_fallback`; `mkdirErr` models the failure
to create the downloads directory. -/
def runManualFallback (menv : Nat → ManualEnv) (autoOpen : Bool)
    (mkdirErr : Option String) (tasks : List ReferenceTask)
    (res : List (Option DownloadResult)) (destination : String)
    (fs : List String) : ManualPhaseOut :=
  let pending := collectPending 0 tasks res
  if pending.isEmpty then ⟨res, [], [], fs⟩
  else
    match mkdirErr with
    | some e =>
      let note := "Manual fallback unavailable (" ++ e ++ ")"
      let res1 := pending.foldl
        (fun acc p => acc.set p.1
          (some ⟨p.2.2.target, false, appendManualNote p.2.2.message note, none, none⟩))
        res
      ⟨res1, [], [], fs⟩
    | none => manualFold menv autoOpen destination pending false ⟨res, [], [], fs⟩

/-! ### Result aggregation (`App._run_downloads`, lines 1259-1307) -/

/-- The `RunSummary` of the spec: the summary lines shown to the user
(`coreLines` before the blank separator, `notes` after it) and the optional
artifact paths. -/
structure RunSummary where
  coreLines : List String
  notes : List String
  summaryLines : List String
  combinedPath : Option String
  reportPath : Option String
deriving DecidableEq, Repr

/-- Configuration of one run: the user-facing options and the modelled
filesystem/merger failure switches. -/
structure RunConfig where
  manualEnabled : Bool
  manualAuto : Bool
  destination : String
  mergerAvailable : Bool
  destMkdirErr : Option String := none
  mergeErr : Option String := none
  downloadsMkdirErr : Option String := none

/-- Embedding of the aggregation tail of `App._run_downloads`: counts,
unique failures, summary lines, the combined PDF and the missing-items
report.  Returns the summary and the destination contents afterwards. -/
def aggregateResults (references : List String) (tasks : List ReferenceTask)
    (results : List DownloadResult)
    (retrySuccesses manualSuccesses : List ReferenceTask) (cfg : RunConfig)
    (fs : List String) : RunSummary × List String :=
  let success := (results.filter (fun r => r.success)).length
  let uniqueFailures :=
    ((tasks.zip results).filter
      (fun p => !p.2.success && p.1.duplicate_of.isNone)).map (fun p => p.2)
  let successPaths := results.filterMap (fun r =>
    if r.success then
      match r.destination with
      | some d => if fs.contains d then some d else none
      | none => none
    else none)
  let coreLines :=
    ["Downloaded " ++ Nat.repr success ++ " of " ++
      Nat.repr references.length ++ " references."] ++
    (if !retrySuccesses.isEmpty then
      [Nat.repr retrySuccesses.length ++ " reference(s) succeeded on a second attempt."]
    else []) ++
    (if !manualSuccesses.isEmpty then
      [Nat.repr manualSuccesses.length ++ " reference(s) were completed via manual fallback."]
    else []) ++
    uniqueFailures.map (fun f => "- " ++ f.target ++ ": " ++ f.message)
  let st := stitchPdfs successPaths cfg.destination fs cfg.mergerAvailable
    cfg.destMkdirErr cfg.mergeErr
  let combinedPath := st.1
  let combineMessage := st.2.1
  let fs1 := st.2.2
  let cr := createFailureReport cfg.destination uniqueFailures fs1
  let reportPath := cr.1
  let fs2 := cr.2.2
  let notes :=
    (match combinedPath, combineMessage with
     | some p, _ => ["Combined PDF saved to: " ++ p]
     | none, some m => [m]
     | none, none => []) ++
    (match reportPath with
     | some p => ["A list of missed PDFs was saved to: " ++ p]
     | none => [])
  let summaryLines := coreLines ++ (if !notes.isEmpty then [""] ++ notes else [])
  (⟨coreLines, notes, summaryLines, combinedPath, reportPath⟩, fs2)

/-! ### The whole run (`App._run_downloads`) -/

/-- Exception handler of `App._run_downloads` (lines 1244-1252): every slot
not yet holding a result receives a synthetic failure with the exception's
message and that task's reference (`"Initialization"` past the end). -/
def fillUnfilled (tasks : List ReferenceTask) (msg : String) :
    Nat → List (Option DownloadResult) → List DownloadResult
  | _, [] => []
  | idx, r :: rs =>
    (match r with
     | some dr => dr
     | none =>
       ⟨(match tasks[idx]? with
         | some t => t.reference
         | none => "Initialization"), false, msg, none, none⟩) ::
    fillUnfilled tasks msg (idx + 1) rs

/-- Everything observable about one run: the final results, a snapshot of
the Phase-1 slots, the indices each phase attempted, the retry/manual
success lists, the escaping exception (if the run aborted), the summary and
the final destination contents. -/
structure RunOutcome where
  tasks : List ReferenceTask
  results : List DownloadResult
  phase1Results : List (Option DownloadResult)
  retryCands : List (Nat × ReferenceTask × DownloadResult)
  phase1Attempts : List Nat
  phase2Attempts : List Nat
  phase3Attempts : List Nat
  retrySuccesses : List ReferenceTask
  manualSuccesses : List ReferenceTask
  aborted : Option String
  summary : RunSummary
  fs : List String
deriving DecidableEq, Repr

/-- Embedding of `App._run_downloads`: task construction and
deduplication, downloader initialization (`init`), the three phases against
the oracles `world` (attempt number, task index) and `menv`, the exception
handler, and the final aggregation. -/
def runDownloads (references : List String) (init : Except String Unit)
    (world : Nat → Nat → AutoEnv) (menv : Nat → ManualEnv) (cfg : RunConfig)
    (fs0 : List String) : RunOutcome :=
  let tasks := buildTasks references
  let empty0 : List (Option DownloadResult) := List.replicate tasks.length none
  match init with
  | Except.error e =>
    let finals :=
      if tasks.isEmpty then [⟨"Initialization", false, e, none, none⟩]
      else fillUnfilled tasks e 0 empty0
    let ag := aggregateResults references tasks finals [] [] cfg fs0
    ⟨tasks, finals, empty0, [], [], [], [], [], [], some e, ag.1, ag.2⟩
  | Except.ok _ =>
    match phase1 world cfg.destination tasks ⟨empty0, [], [], fs0⟩ with
    | Except.error (e, st) =>
      let finals :=
        if st.res.isEmpty then [⟨"Initialization", false, e, none, none⟩]
        else fillUnfilled tasks e 0 st.res
      let ag := aggregateResults references tasks finals [] [] cfg st.fs
      ⟨tasks, finals, st.res, st.cands, st.attempts, [], [], [], [], some e,
        ag.1, ag.2⟩
    | Except.ok st1 =>
      match phase2 world cfg.destination st1.cands ⟨st1.res, [], [], st1.fs⟩ with
      | Except.error (e, st2) =>
        let finals :=
          if st2.res.isEmpty then [⟨"Initialization", false, e, none, none⟩]
          else fillUnfilled tasks e 0 st2.res
        let ag := aggregateResults references tasks finals [] [] cfg st2.fs
        ⟨tasks, finals, st1.res, st1.cands, st1.attempts, st2.attempts, [],
          [], [], some e, ag.1, ag.2⟩
      | Except.ok st2 =>
        let m : ManualPhaseOut :=
          if cfg.manualEnabled then
            runManualFallback menv cfg.manualAuto cfg.downloadsMkdirErr tasks
              st2.res cfg.destination st2.fs
          else ⟨st2.res, [], [], st2.fs⟩
        let results :=
          if !m.res.isEmpty && m.res.all Option.isSome then m.res.reduceOption
          else [⟨"Initialization", false, "Downloader did not start", none, none⟩]
        let ag := aggregateResults references tasks results st2.succ m.succ cfg m.fs
        ⟨tasks, results, st1.res, st1.cands, st1.attempts, st2.attempts,
          m.attempts, st2.succ, m.succ, none, ag.1, ag.2⟩

/-- A manual-phase oracle that never interacts (prompt declined, no
targets, no opened tabs, no polls). -/
def idleManualEnv : ManualEnv :=
  ⟨false, ⟨"", none, none, none⟩, fun _ => none, [], [], Except.ok 1, none⟩

/-! ### Decimal representation: `Nat.repr` is injective

Needed for the freshness of `_dedupe_path`: the candidate names
`stem_1`, `stem_2`, … are pairwise distinct. -/

/-- Numeric value of a decimal digit character. -/
def digitVal (c : Char) : Nat := c.toNat - '0'.toNat

/-- Decimal decoding of a character list (most significant first) onto an
accumulator. -/
def decodeAux : List Char → Nat → Nat
  | [], v => v
  | c :: cs, v => decodeAux cs (v * 10 + digitVal c)

theorem digitVal_digitChar (m : Nat) (h : m < 10) :
    digitVal (Nat.digitChar m) = m := by
  interval_cases m <;> rfl

theorem decodeAux_toDigitsCore (n : Nat) :
    ∀ fuel ds v, n ≤ fuel →
      ∃ k, 0 < k ∧
        decodeAux (Nat.toDigitsCore 10 (fuel + 1) n ds) v =
          decodeAux ds (v * 10 ^ k + n) := by
  induction n using Nat.strong_induction_on with
  | _ n ih =>
    intro fuel ds v hle
    show ∃ k, 0 < k ∧
      decodeAux
        (if n / 10 = 0 then Nat.digitChar (n % 10) :: ds
         else Nat.toDigitsCore 10 fuel (n / 10) (Nat.digitChar (n % 10) :: ds)) v =
      decodeAux ds (v * 10 ^ k + n)
    by_cases h0 : n / 10 = 0
    · refine ⟨1, Nat.one_pos, ?_⟩
      simp only [h0, if_pos]
      have hn10 : n < 10 := by
        have h1 := Nat.div_add_mod n 10
        have h2 := Nat.mod_lt n (show 0 < 10 by omega)
        omega
      show decodeAux ds (v * 10 + digitVal (Nat.digitChar (n % 10))) =
        decodeAux ds (v * 10 ^ 1 + n)
      rw [digitVal_digitChar (n % 10) (Nat.mod_lt n (by omega)), Nat.mod_eq_of_lt hn10]
      norm_num
    · have hge : 10 ≤ n := by
        by_contra hlt
        exact h0 (Nat.div_eq_of_lt (by omega))
      have hfuel : 1 ≤ fuel := by omega
      have hdlt : n / 10 < n := Nat.div_lt_self (by omega) (by omega)
      have hdle : n / 10 ≤ fuel - 1 := by
        have := Nat.div_le_self n 10
        omega
      obtain ⟨k, hk, hdec⟩ :=
        ih (n / 10) hdlt (fuel - 1) (Nat.digitChar (n % 10) :: ds) v hdle
      refine ⟨k + 1, by omega, ?_⟩
      have hfe : fuel - 1 + 1 = fuel := by omega
      rw [if_neg h0, ← hfe, hdec]
      show decodeAux ds ((v * 10 ^ k + n / 10) * 10 + digitVal (Nat.digitChar (n % 10))) =
        decodeAux ds (v * 10 ^ (k + 1) + n)
      rw [digitVal_digitChar (n % 10) (Nat.mod_lt n (by omega))]
      have : (v * 10 ^ k + n / 10) * 10 + n % 10 = v * 10 ^ (k + 1) + n := by
        have hmod := Nat.div_add_mod n 10
        ring_nf
        omega
      rw [this]

theorem decodeAux_toDigits (n : Nat) : decodeAux (Nat.toDigits 10 n) 0 = n := by
  obtain ⟨k, -, h⟩ := decodeAux_toDigitsCore n n [] 0 (Nat.le_refl n)
  simpa [Nat.toDigits, decodeAux] using h

theorem toDigits_injective (a b : Nat)
    (h : Nat.toDigits 10 a = Nat.toDigits 10 b) : a = b := by
  have := decodeAux_toDigits a
  rw [h, decodeAux_toDigits b] at this
  omega

theorem natRepr_injective (a b : Nat) (h : Nat.repr a = Nat.repr b) : a = b :=
  toDigits_injective a b (congrArg String.data h)

/-- A `toDigitsCore` call never shortens its accumulator. -/
theorem toDigitsCore_length_mono :
    ∀ fuel n (ds : List Char), ds.length ≤ (Nat.toDigitsCore 10 fuel n ds).length := by
  intro fuel
  induction fuel with
  | zero => intro n ds; exact Nat.le_refl _
  | succ fuel ih =>
    intro n ds
    show ds.length ≤
      (if n / 10 = 0 then Nat.digitChar (n % 10) :: ds
       else Nat.toDigitsCore 10 fuel (n / 10) (Nat.digitChar (n % 10) :: ds)).length
    by_cases h0 : n / 10 = 0
    · simp [h0]
    · rw [if_neg h0]
      calc ds.length ≤ (Nat.digitChar (n % 10) :: ds).length := by simp
        _ ≤ _ := ih (n / 10) (Nat.digitChar (n % 10) :: ds)

/-- The decimal representation of a number is never the empty string. -/
theorem toDigits_length_pos (n : Nat) : 0 < (Nat.toDigits 10 n).length := by
  show 0 < (Nat.toDigitsCore 10 (n + 1) n []).length
  show 0 <
    (if n / 10 = 0 then Nat.digitChar (n % 10) :: ([] : List Char)
     else Nat.toDigitsCore 10 n (n / 10) (Nat.digitChar (n % 10) :: [])).length
  by_cases h0 : n / 10 = 0
  · simp [h0]
  · rw [if_neg h0]
    calc 0 < (Nat.digitChar (n % 10) :: ([] : List Char)).length := by simp
      _ ≤ _ := toDigitsCore_length_mono n (n / 10) _

/-! ### Freshness of `_dedupe_path` -/

/-- The sequence of candidates `_dedupe_path` tries from state
`(k, cur)`: the current candidate first, then `stem_k`, `stem_(k+1)`, …. -/
def candSeq (p : String) (k : Nat) (cur : String) : Nat → String
  | 0 => cur
  | i + 1 => dedupeCandidate p (k + i)

theorem candSeq_shift (p : String) (k : Nat) (cur : String) (j : Nat) :
    candSeq p k cur (j + 1) = candSeq p (k + 1) (dedupeCandidate p k) j := by
  cases j with
  | zero => simp [candSeq]
  | succ i =>
    show dedupeCandidate p (k + (i + 1)) = dedupeCandidate p (k + 1 + i)
    have : k + (i + 1) = k + 1 + i := by omega
    rw [this]

theorem dedupeGo_fresh (fs : List String) (p : String) :
    ∀ fuel k cur, (∃ i, i < fuel ∧ candSeq p k cur i ∉ fs) →
      dedupeGo fs p fuel k cur ∉ fs := by
  intro fuel
  induction fuel with
  | zero => intro k cur ⟨i, hi, _⟩; omega
  | succ fuel ih =>
    intro k cur ⟨i, hi, hni⟩
    show (if cur ∈ fs then dedupeGo fs p fuel (k + 1) (dedupeCandidate p k) else cur) ∉ fs
    by_cases hc : cur ∈ fs
    · rw [if_pos hc]
      apply ih
      match i, hni with
      | 0, hni => exact absurd hc hni
      | j + 1, hni =>
        exact ⟨j, by omega, by rw [← candSeq_shift]; exact hni⟩
    · rw [if_neg hc]; exact hc

theorem repr_data_eq_toDigits (n : Nat) : (Nat.repr n).data = Nat.toDigits 10 n := rfl

/-- The two halves produced by `splitLastSlashL` put the path back
together. -/
theorem splitLastSlash_append (l : List Char) :
    (splitLastSlashL l).1 ++ (splitLastSlashL l).2 = l := by
  obtain ⟨t, ht⟩ := List.takeWhile_prefix (l := l.reverse) (fun c => decide (c ≠ '/'))
  show l.take (l.length - (l.reverse.takeWhile (fun c => decide (c ≠ '/'))).length) ++
    (l.reverse.takeWhile (fun c => decide (c ≠ '/'))).reverse = l
  set r := l.reverse.takeWhile (fun c => decide (c ≠ '/')) with hrdef
  have hl : l = t.reverse ++ r.reverse := by
    have := congrArg List.reverse ht
    simpa using this.symm
  have hlen : l.length = r.length + t.length := by
    have := congrArg List.length ht
    simpa using this.symm
  have hlt : l.length - r.length = t.reverse.length := by
    simp only [List.length_reverse]
    omega
  rw [hlt]
  conv_lhs => rw [hl]
  rw [List.take_left]
  exact hl.symm

/-- Splitting a path into directory, stem and suffix puts it back
together. -/
theorem path_split_eq (p : String) :
    p = pathDir p ++ pathStem p ++ pathSuffix p := by
  apply String.ext
  simp only [String.data_append]
  have h2 : (pathStem p).data ++ (pathSuffix p).data = (splitLastSlashL p.data).2 :=
    List.take_append_drop _ _
  calc p.data = (splitLastSlashL p.data).1 ++ (splitLastSlashL p.data).2 :=
        (splitLastSlash_append p.data).symm
    _ = (splitLastSlashL p.data).1 ++ ((pathStem p).data ++ (pathSuffix p).data) := by
        rw [h2]
    _ = (pathDir p).data ++ (pathStem p).data ++ (pathSuffix p).data :=
        (List.append_assoc _ _ _).symm

/-- Distinct dedupe counters give distinct candidate paths. -/
theorem dedupeCandidate_injective (p : String) (m m' : Nat)
    (h : dedupeCandidate p m = dedupeCandidate p m') : m = m' := by
  have hd := congrArg String.data h
  simp only [dedupeCandidate, String.data_append, List.append_assoc] at hd
  have h1 := List.append_cancel_left hd
  have h2 := List.append_cancel_left h1
  have h3 := List.append_cancel_left h2
  have h4 := List.append_cancel_right h3
  exact natRepr_injective m m' (String.ext h4)

/-- The original path is never one of the suffixed candidates (they are
strictly longer). -/
theorem ne_dedupeCandidate (p : String) (m : Nat) :
    p ≠ dedupeCandidate p m := by
  intro h
  have hlenp : p.data.length = (pathDir p).data.length + (pathStem p).data.length +
      (pathSuffix p).data.length := by
    conv_lhs => rw [path_split_eq p]
    simp only [String.data_append, List.length_append]
  have hlencand := congrArg (fun s => s.data.length) h
  simp only [dedupeCandidate, String.data_append, List.length_append] at hlencand
  have hr : 0 < (Nat.repr m).data.length := by
    rw [repr_data_eq_toDigits]
    exact toDigits_length_pos m
  have hu : ("_" : String).data.length = 1 := rfl
  omega

/-- The candidate sequence of `_dedupe_path` never repeats a path. -/
theorem candSeq_injective (p : String) (i j : Nat)
    (h : candSeq p 1 p i = candSeq p 1 p j) : i = j := by
  cases i with
  | zero =>
    cases j with
    | zero => rfl
    | succ j1 => exact absurd h (ne_dedupeCandidate p (1 + j1))
  | succ i1 =>
    cases j with
    | zero => exact absurd h.symm (ne_dedupeCandidate p (1 + i1))
    | succ j1 =>
      have := dedupeCandidate_injective p (1 + i1) (1 + j1) h
      omega

/-- Pigeonhole: among the first `fs.length + 1` candidates some path is
fresh. -/
theorem candSeq_exists_fresh (fs : List String) (p : String) :
    ∃ i, i < fs.length + 1 ∧ candSeq p 1 p i ∉ fs := by
  by_contra hall
  push_neg at hall
  have hmem : ∀ i : Fin (fs.length + 1), candSeq p 1 p i ∈ fs :=
    fun i => hall i i.isLt
  have hinj : Function.Injective (fun i : Fin (fs.length + 1) => candSeq p 1 p i) := by
    intro i j hij
    exact Fin.ext (candSeq_injective p i j hij)
  have hcard : fs.length + 1 ≤ fs.toFinset.card := by
    have himg : (Finset.univ.image
        (fun i : Fin (fs.length + 1) => candSeq p 1 p i)) ⊆ fs.toFinset := by
      intro x hx
      simp only [Finset.mem_image] at hx
      obtain ⟨i, -, rfl⟩ := hx
      exact List.mem_toFinset.mpr (hmem i)
    calc fs.length + 1
        = (Finset.univ : Finset (Fin (fs.length + 1))).card := by simp
      _ = (Finset.univ.image (fun i : Fin (fs.length + 1) => candSeq p 1 p i)).card :=
          (Finset.card_image_of_injective _ hinj).symm
      _ ≤ fs.toFinset.card := Finset.card_le_card himg
  have := fs.toFinset_card_le
  omega

/-- The path chosen by `_dedupe_path` does not exist in the directory. -/
theorem dedupePath_fresh (fs : List String) (p : String) :
    dedupePath fs p ∉ fs := by
  obtain ⟨i, hi, hfresh⟩ := candSeq_exists_fresh fs p
  exact dedupeGo_fresh fs p (fs.length + 1) 1 p ⟨i, hi, hfresh⟩

/-- The chosen path is the original or a numerically suffixed candidate. -/
theorem dedupeGo_shape (fs : List String) (p : String) :
    ∀ fuel k cur, dedupeGo fs p fuel k cur = cur ∨
      ∃ i, dedupeGo fs p fuel k cur = dedupeCandidate p (k + i) := by
  intro fuel
  induction fuel with
  | zero => intro k cur; exact Or.inl rfl
  | succ fuel ih =>
    intro k cur
    by_cases hc : cur ∈ fs
    · have hstep : dedupeGo fs p (fuel + 1) k cur =
          dedupeGo fs p fuel (k + 1) (dedupeCandidate p k) := by
        show (if cur ∈ fs then dedupeGo fs p fuel (k + 1) (dedupeCandidate p k)
          else cur) = _
        rw [if_pos hc]
      rcases ih (k + 1) (dedupeCandidate p k) with h | ⟨i, h⟩
      · exact Or.inr ⟨0, by rw [hstep, h, Nat.add_zero]⟩
      · refine Or.inr ⟨1 + i, ?_⟩
        rw [hstep, h, show k + (1 + i) = k + 1 + i by omega]
    · have hstep : dedupeGo fs p (fuel + 1) k cur = cur := by
        show (if cur ∈ fs then dedupeGo fs p fuel (k + 1) (dedupeCandidate p k)
          else cur) = _
        rw [if_neg hc]
      exact Or.inl hstep

/-- When the path is already fresh it is returned unchanged. -/
theorem dedupePath_id (fs : List String) (p : String) (h : p ∉ fs) :
    dedupePath fs p = p := by
  show (if p ∈ fs then dedupeGo fs p fs.length 2 (dedupeCandidate p 1) else p) = p
  rw [if_neg h]

/-- A successful `download` moves the file to a destination that did not
exist in `final_dir` beforehand. -/
theorem downloadRun_success_dest (env : AutoEnv)
    (reference outputName finalDir : String) (fs : List String)
    (r : DownloadResult)
    (hok : (downloadRun env reference outputName finalDir fs).result = Except.ok r)
    (hs : r.success = true) :
    ∃ d, r.destination = some d ∧ d ∉ fs := by
  unfold downloadRun at hok
  repeat' split at hok
  all_goals simp_all
  all_goals (obtain rfl := hok; simp_all)
  all_goals exact dedupePath_fresh _ _

set_option maxHeartbeats 4000000

/-- A manual-fallback success likewise moves the file to a destination that
did not already exist. -/
theorem performManualDownload_success_dest (env : ManualEnv) (autoOpen ack : Bool)
    (task : ReferenceTask) (destination previousMessage : String)
    (fs : List String) (out : DownloadResult × Bool × List String)
    (hout : performManualDownload env autoOpen ack task destination
      previousMessage fs = out)
    (hs : out.1.success = true) :
    ∃ d, out.1.destination = some d ∧ d ∉ fs := by
  unfold performManualDownload at hout
  repeat' split at hout
  all_goals (subst hout; simp_all)
  all_goals (repeat' split <;> try simp_all)
  all_goals exact dedupePath_fresh _ _

/-- The missing-items report is written to a path that did not exist. -/
theorem createFailureReport_fresh (destination : String)
    (failures : List DownloadResult) (fs : List String) (r : String)
    (h : (createFailureReport destination failures fs).1 = some r) : r ∉ fs := by
  unfold createFailureReport at h
  split at h
  · exact absurd h (by simp)
  · simp only [Option.some.injEq] at h
    rw [← h]
    exact dedupePath_fresh fs _

/-- The combined PDF is written to a path that did not exist. -/
theorem stitchPdfs_fresh (pdfFiles : List String) (destinationDir : String)
    (fs : List String) (mergerAvailable : Bool)
    (destMkdirErr mergeErr : Option String) (m : String)
    (h : (stitchPdfs pdfFiles destinationDir fs mergerAvailable destMkdirErr
      mergeErr).1 = some m) : m ∉ fs := by
  simp only [stitchPdfs] at h
  repeat' split at h
  all_goals simp_all
  subst h
  exact dedupePath_fresh fs _

/-- Stitching only adds files to the directory. -/
theorem stitchPdfs_mono (pdfFiles : List String) (destinationDir : String)
    (fs : List String) (mergerAvailable : Bool)
    (destMkdirErr mergeErr : Option String) (x : String) (hx : x ∈ fs) :
    x ∈ (stitchPdfs pdfFiles destinationDir fs mergerAvailable destMkdirErr
      mergeErr).2.2 := by
  simp only [stitchPdfs]
  repeat' split
  all_goals simp_all

/-- A report path produced by the aggregation never existed beforehand. -/
theorem aggregateResults_reportPath_fresh (references : List String)
    (tasks : List ReferenceTask) (results : List DownloadResult)
    (retrySuccesses manualSuccesses : List ReferenceTask) (cfg : RunConfig)
    (fs : List String) (p : String)
    (h : (aggregateResults references tasks results retrySuccesses
      manualSuccesses cfg fs).1.reportPath = some p) : p ∉ fs := by
  simp only [aggregateResults] at h
  intro hmem
  exact createFailureReport_fresh _ _ _ _ h
    (stitchPdfs_mono _ _ _ _ _ _ _ hmem)

/-- A combined-PDF path produced by the aggregation never existed
beforehand. -/
theorem aggregateResults_combined_fresh (references : List String)
    (tasks : List ReferenceTask) (results : List DownloadResult)
    (retrySuccesses manualSuccesses : List ReferenceTask) (cfg : RunConfig)
    (fs : List String) (p : String)
    (h : (aggregateResults references tasks results retrySuccesses
      manualSuccesses cfg fs).1.combinedPath = some p) : p ∉ fs := by
  simp only [aggregateResults] at h
  exact stitchPdfs_fresh _ _ _ _ _ _ _ h

/-! ### Claim theorems -/

/-- C9: no write of a persisted artifact ever overwrites an existing file:
`_dedupe_path` always returns a path absent from the directory (the
original, or the stem with a numeric suffix `_1`, `_2`, …), and each of the
three write sites - the missing-items report, the combined PDF, and the
destination a downloaded PDF is moved to (automated and manual) - chooses
its output path through it against the directory contents at write time. -/
theorem c9_no_overwrite :
    (∀ (fs : List String) (p : String), dedupePath fs p ∉ fs ∧
      (dedupePath fs p = p ∨ ∃ k, dedupePath fs p = dedupeCandidate p (1 + k))) ∧
    (∀ (destination : String) (failures : List DownloadResult)
      (fs : List String) (r : String),
      (createFailureReport destination failures fs).1 = some r → r ∉ fs) ∧
    (∀ (pdfFiles : List String) (destinationDir : String) (fs : List String)
      (mergerAvailable : Bool) (destMkdirErr mergeErr : Option String) (m : String),
      (stitchPdfs pdfFiles destinationDir fs mergerAvailable destMkdirErr
        mergeErr).1 = some m → m ∉ fs) ∧
    (∀ (env : AutoEnv) (reference outputName finalDir : String)
      (fs : List String) (r : DownloadResult),
      (downloadRun env reference outputName finalDir fs).result = Except.ok r →
      r.success = true → ∃ d, r.destination = some d ∧ d ∉ fs) ∧
    (∀ (env : ManualEnv) (autoOpen ack : Bool) (task : ReferenceTask)
      (destination previousMessage : String) (fs : List String)
      (out : DownloadResult × Bool × List String),
      performManualDownload env autoOpen ack task destination previousMessage
        fs = out →
      out.1.success = true → ∃ d, out.1.destination = some d ∧ d ∉ fs) := by
  refine ⟨?_, ?_, ?_, ?_, ?_⟩
  · intro fs p
    refine ⟨dedupePath_fresh fs p, ?_⟩
    exact dedupeGo_shape fs p (fs.length + 1) 1 p
  · exact createFailureReport_fresh
  · exact stitchPdfs_fresh
  · exact downloadRun_success_dest
  · exact performManualDownload_success_dest

/-- Witness for C9 at concrete inputs. -/
theorem c9_no_overwrite_witness :
    dedupePath ["d/a.pdf"] "d/a.pdf" ∉ ["d/a.pdf"] ∧
    "d/missing_pdfs.txt" ∉ ([] : List String) ∧
    "d/combined_references.pdf" ∉ (["x.pdf"] : List String) ∧
    (∃ d, (⟨"r", true, "Downloaded", some "dest/o.pdf", some "o"⟩ :
      DownloadResult).destination = some d ∧ d ∉ ([] : List String)) ∧
    (∃ d, (performManualDownload
        ⟨true, ⟨"q", none, none, none⟩, fun _ => none, [],
          [[⟨"m.pdf", 3⟩], [⟨"m.pdf", 3⟩]], Except.ok 3, none⟩
        false false ⟨1, "T", "out0", "T", none⟩ "dest" "prev" []).1.destination =
      some d ∧ d ∉ ([] : List String)) := by
  refine ⟨(c9_no_overwrite.1 ["d/a.pdf"] "d/a.pdf").1, ?_, ?_, ?_, ?_⟩
  · exact c9_no_overwrite.2.1 "d" [⟨"t", false, "m", none, none⟩] []
      "d/missing_pdfs.txt" (by decide)
  · exact c9_no_overwrite.2.2.1 ["x.pdf"] "d" ["x.pdf"] true none none
      "d/combined_references.pdf" (by decide)
  · exact c9_no_overwrite.2.2.2.1 {} "r" "o" "dest" []
      ⟨"r", true, "Downloaded", some "dest/o.pdf", some "o"⟩ (by decide) (by decide)
  · exact c9_no_overwrite.2.2.2.2
      ⟨true, ⟨"q", none, none, none⟩, fun _ => none, [],
        [[⟨"m.pdf", 3⟩], [⟨"m.pdf", 3⟩]], Except.ok 3, none⟩
      false false ⟨1, "T", "out0", "T", none⟩ "dest" "prev" [] _ rfl rfl

/-- `setA` lookup at the written key. -/
theorem lookupA_setA_self (m : List (String × Nat)) (k : String) (v : Nat) :
    lookupA (setA m k v) k = some v := by
  unfold lookupA setA
  rw [List.find?_cons_of_pos _ (by simp)]

/-- `setA` lookup at another key. -/
theorem lookupA_setA_ne (m : List (String × Nat)) (k k' : String) (v : Nat)
    (h : k' ≠ k) : lookupA (setA m k v) k' = lookupA m k' := by
  unfold lookupA setA
  rw [List.find?_cons_of_neg _ (by
    intro hc
    have hkk : k = k' := by simpa using hc
    exact h hkk.symm)]
  induction m with
  | nil => rfl
  | cons e rest ih =>
    by_cases he : e.1 = k
    · rw [List.filter_cons_of_neg (by simp [he]),
        List.find?_cons_of_neg _ (by simp [he]; exact Ne.symm h)]
      exact ih
    · rw [List.filter_cons_of_pos (by simp [he])]
      by_cases hk' : e.1 = k'
      · rw [List.find?_cons_of_pos _ (by simp [hk']),
          List.find?_cons_of_pos _ (by simp [hk'])]
      · rw [List.find?_cons_of_neg _ (by simp [hk']),
          List.find?_cons_of_neg _ (by simp [hk'])]
        exact ih

/-- Every entry of the tracker returned by the candidate scan was either
already tracked or observed during this scan. -/
theorem manualScan_tracker (existing : List String) :
    ∀ (cands : List FileObs) (tracker stables : List (String × Nat))
      (n : String) (s : Nat),
      lookupA (manualScan existing tracker stables cands).2.1 n = some s →
      lookupA tracker n = some s ∨ FileObs.mk n s ∈ cands := by
  intro cands
  induction cands with
  | nil => intro tracker stables n s h; exact Or.inl h
  | cons c rest ih =>
    intro tracker stables n s h
    unfold manualScan at h
    by_cases hex : existing.contains c.name = true
    · rw [if_pos hex] at h
      rcases ih _ _ n s h with h1 | h2
      · exact Or.inl h1
      · exact Or.inr (List.mem_cons_of_mem _ h2)
    · rw [if_neg hex] at h
      dsimp only at h
      split at h
      · dsimp only at h
        by_cases hn : n = c.name
        · subst hn
          rw [lookupA_setA_self] at h
          injection h with h2
          rw [← h2]
          exact Or.inr (List.mem_cons_self c rest)
        · rw [lookupA_setA_ne _ _ _ _ hn] at h
          exact Or.inl h
      · rcases ih _ _ n s h with h1 | h2
        · by_cases hn : n = c.name
          · subst hn
            rw [lookupA_setA_self] at h1
            injection h1 with h2
            rw [← h2]
            exact Or.inr (List.mem_cons_self c rest)
          · rw [lookupA_setA_ne _ _ _ _ hn] at h1
            exact Or.inl h1
        · exact Or.inr (List.mem_cons_of_mem _ h2)

/-- A file returned by the candidate scan is a freshly listed candidate
whose current size equals a size for which the invariant `P` held (at the
top level: its previously tracked size). -/
theorem manualScan_found (existing : List String) :
    ∀ (cands : List FileObs) (tracker stables : List (String × Nat))
      (P : String → Nat → Prop) (f : String),
      (∀ n s, lookupA tracker n = some s → P n s) →
      ((cands.map (fun o => o.name)).Nodup) →
      (manualScan existing tracker stables cands).1 = some f →
      ∃ s, FileObs.mk f s ∈ cands ∧ P f s ∧
        existing.contains f = false := by
  intro cands
  induction cands with
  | nil =>
    intro tracker stables P f hP hnd h
    simp [manualScan] at h
  | cons c rest ih =>
    intro tracker stables P f hP hnd h
    unfold manualScan at h
    by_cases hex : existing.contains c.name = true
    · rw [if_pos hex] at h
      obtain ⟨s, hmem, hPs, hcf⟩ :=
        ih _ _ P f hP (List.nodup_cons.mp hnd).2 h
      exact ⟨s, List.mem_cons_of_mem _ hmem, hPs, hcf⟩
    · rw [if_neg hex] at h
      have hexf : existing.contains c.name = false := by
        cases hv : existing.contains c.name with
        | true => exact absurd hv hex
        | false => rfl
      dsimp only at h
      split at h
      · dsimp only at h
        injection h with hcn
        rename_i k heq
        cases htr : lookupA tracker c.name with
        | none =>
          rw [htr] at heq
          dsimp only at heq
          rw [lookupA_setA_self] at heq
          injection heq with heq2
          omega
        | some prev =>
          rw [htr] at heq
          dsimp only at heq
          by_cases hsz : c.size = prev
          · refine ⟨c.size, ?_, ?_, ?_⟩
            · rw [← hcn]
              exact List.mem_cons_self c rest
            · rw [← hcn, hsz]
              exact hP c.name prev htr
            · rw [← hcn]
              exact hexf
          · rw [if_neg hsz] at heq
            rw [lookupA_setA_self] at heq
            injection heq with heq2
            omega
      · have hinv : ∀ n s, lookupA (setA tracker c.name c.size) n = some s →
            (P n s ∨ FileObs.mk n s = c) := by
          intro n s hl
          by_cases hn : n = c.name
          · subst hn
            rw [lookupA_setA_self] at hl
            injection hl with hl2
            rw [← hl2]
            exact Or.inr rfl
          · rw [lookupA_setA_ne _ _ _ _ hn] at hl
            exact Or.inl (hP n s hl)
        obtain ⟨s, hmem, hPs, hcf⟩ := ih _ _
          (fun n s => P n s ∨ FileObs.mk n s = c) f hinv
          (List.nodup_cons.mp hnd).2 h
        rcases hPs with hPs | heqc
        · exact ⟨s, List.mem_cons_of_mem _ hmem, hPs, hcf⟩
        · have hfin : f ∈ rest.map (fun o => o.name) := by
            have := List.mem_map_of_mem (fun o => o.name) hmem
            simpa using this
          have hfn : f = c.name := congrArg FileObs.name heqc
          rw [hfn] at hfin
          exact absurd hfin (List.nodup_cons.mp hnd).1

/-- A file reported by the manual poll loop is fresh, is a PDF, and was
observed with one unchanged size either while `P` held of that size or in
two distinct polls. -/
theorem manualLoop_found (existing : List String) :
    ∀ (polls : List (List FileObs)) (tracker stables : List (String × Nat))
      (P : String → Nat → Prop) (f : String),
      (∀ n s, lookupA tracker n = some s → P n s) →
      (∀ poll ∈ polls,
        (((poll.filter (fun o => pyEndsWith o.name ".pdf")).map
          (fun o => o.name)).Nodup)) →
      manualLoop existing tracker stables polls = some f →
      existing.contains f = false ∧ pyEndsWith f ".pdf" = true ∧
      ∃ s : Nat, ((P f s ∧ ∃ p ∈ polls, FileObs.mk f s ∈ p) ∨
        (∃ (i j : Nat) (pi pj : List FileObs), i < j ∧
          polls[i]? = some pi ∧ polls[j]? = some pj ∧
          FileObs.mk f s ∈ pi ∧ FileObs.mk f s ∈ pj)) := by
  intro polls
  induction polls with
  | nil =>
    intro tracker stables P f hP hnd h
    simp [manualLoop] at h
  | cons poll rest ih =>
    intro tracker stables P f hP hnd h
    unfold manualLoop at h
    dsimp only at h
    rcases hscan : manualScan existing tracker stables
        (poll.filter (fun o => pyEndsWith o.name ".pdf")) with ⟨o, tr1, stb1⟩
    rw [hscan] at h
    cases o with
    | some g =>
      dsimp only at h
      injection h with hgf
      subst hgf
      obtain ⟨s, hmem, hPs, hcf⟩ := manualScan_found existing
        (poll.filter (fun o => pyEndsWith o.name ".pdf")) tracker stables P
        g hP (hnd poll (List.mem_cons_self _ _)) (by rw [hscan])
      obtain ⟨hmemp, hpdf⟩ := List.mem_filter.mp hmem
      refine ⟨hcf, by simpa using hpdf, s,
        Or.inl ⟨hPs, poll, List.mem_cons_self _ _, hmemp⟩⟩
    | none =>
      dsimp only at h
      have hP' : ∀ n s, lookupA tr1 n = some s →
          (P n s ∨ FileObs.mk n s ∈ poll) := by
        intro n s hl
        have hsrc := manualScan_tracker existing
          (poll.filter (fun o => pyEndsWith o.name ".pdf")) tracker stables
          n s (by rw [hscan]; exact hl)
        rcases hsrc with h1 | h2
        · exact Or.inl (hP n s h1)
        · exact Or.inr (List.mem_filter.mp h2).1
      obtain ⟨hcf, hpdf, s, hcase⟩ := ih tr1 stb1
        (fun n s => P n s ∨ FileObs.mk n s ∈ poll) f hP'
        (fun p hp => hnd p (List.mem_cons_of_mem _ hp)) h
      refine ⟨hcf, hpdf, s, ?_⟩
      rcases hcase with ⟨hPor, p, hp, hmp⟩ |
        ⟨i, j, pi, pj, hij, hpi, hpj, hmi, hmj⟩
      · rcases hPor with hPs | hinpoll
        · exact Or.inl ⟨hPs, p, List.mem_cons_of_mem _ hp, hmp⟩
        · obtain ⟨jp, hjp, hjget⟩ := List.mem_iff_getElem.mp hp
          have hrj : rest[jp]? = some p := by
            rw [List.getElem?_eq_getElem hjp, hjget]
          refine Or.inr ⟨0, jp + 1, poll, p, by omega, by simp, ?_, hinpoll,
            hmp⟩
          simpa using hrj
      · exact Or.inr ⟨i + 1, j + 1, pi, pj, by omega, by simpa using hpi,
          by simpa using hpj, hmi, hmj⟩

/-- A file reported by the automatic detector is new relative to the
snapshot and passes the pdf/non-partial filter; no size is ever read. -/
theorem waitForNewFile_found (existing : List String) :
    ∀ (polls : List (List String)) (f : String),
      waitForNewFile existing polls = some f →
      existing.contains f = false ∧ isPdfNonPart f = true ∧
      ∃ p ∈ polls, f ∈ p := by
  intro polls
  induction polls with
  | nil =>
    intro f h
    simp [waitForNewFile] at h
  | cons poll rest ih =>
    intro f h
    unfold waitForNewFile at h
    cases hf : poll.find?
        (fun n => !(existing.contains n) && isPdfNonPart n) with
    | some g =>
      rw [hf] at h
      dsimp only at h
      injection h with hgf
      subst hgf
      have hpred := List.find?_some hf
      have hmem := List.mem_of_find?_eq_some hf
      rw [Bool.and_eq_true] at hpred
      obtain ⟨hnc, hpdf⟩ := hpred
      refine ⟨?_, hpdf, poll, List.mem_cons_self _ _, hmem⟩
      cases hv : existing.contains g with
      | false => rfl
      | true => rw [hv] at hnc; cases hnc
    | none =>
      rw [hf] at h
      dsimp only at h
      obtain ⟨hc, hp, p, hpm, hfm⟩ := ih f h
      exact ⟨hc, hp, p, List.mem_cons_of_mem _ hpm, hfm⟩

/-- C1 counterexample: the automatic detector `_wait_for_new_file`
reports `a.pdf` from a run with a single poll in which the file is
observed exactly once, so its size cannot have been observed unchanged
across an additional poll before being reported (the detector never
reads sizes at all). -/
theorem c1_counterexample :
    waitForNewFileObs [] [[⟨"a.pdf", 1⟩]] = some "a.pdf" ∧
    (([[FileObs.mk "a.pdf" 1]] : List (List FileObs)).flatten.filter
      (fun o => o.name = "a.pdf")).length = 1 := by decide

/-- C1 (amended): the automatic detector `_wait_for_new_file` guarantees
only that the reported file is absent from the pre-trigger snapshot,
has suffix `.pdf` and does not wear the `.part` in-progress suffix — it
performs no size-stability check and can report a file on its very first
observation.  Only the manual detector `wait_for_manual_pdf` adds the
stability guarantee: under duplicate-free per-poll listings, a reported
file is absent from the snapshot, ends in `.pdf`, and was observed with
one and the same size in two distinct polls (its size was seen unchanged
across at least one additional poll). -/
theorem c1_detector_amended :
    (∀ (existing : List String) (polls : List (List String)) (f : String),
        waitForNewFile existing polls = some f →
        existing.contains f = false ∧ isPdfNonPart f = true ∧
        ∃ p ∈ polls, f ∈ p) ∧
    (∀ (existing : List String) (polls : List (List FileObs)) (f : String),
        (∀ poll ∈ polls,
          (((poll.filter (fun o => pyEndsWith o.name ".pdf")).map
            (fun o => o.name)).Nodup)) →
        waitForManualPdf existing polls = some f →
        existing.contains f = false ∧ pyEndsWith f ".pdf" = true ∧
        ∃ (s i j : Nat) (pi pj : List FileObs), i < j ∧
          polls[i]? = some pi ∧ polls[j]? = some pj ∧
          FileObs.mk f s ∈ pi ∧ FileObs.mk f s ∈ pj) := by
  constructor
  · intro existing polls f h
    exact waitForNewFile_found existing polls f h
  · intro existing polls f hnd h
    obtain ⟨hcf, hpdf, s, hcase⟩ := manualLoop_found existing polls [] []
      (fun _ _ => False) f
      (by intro n s hl; simp [lookupA, List.find?_nil] at hl) hnd h
    rcases hcase with ⟨hfalse, _⟩ |
      ⟨i, j, pi, pj, hij, hpi, hpj, hmi, hmj⟩
    · exact hfalse.elim
    · exact ⟨hcf, hpdf, s, i, j, pi, pj, hij, hpi, hpj, hmi, hmj⟩

/-- Witness for C1 on concrete runs: the auto detector reports a fresh
pdf, and the manual detector reports a file observed with the same size
in two successive polls. -/
theorem c1_detector_amended_witness :
    (([] : List String).contains "a.pdf" = false ∧
      isPdfNonPart "a.pdf" = true ∧ ∃ p ∈ [["a.pdf"]], "a.pdf" ∈ p) ∧
    (([] : List String).contains "m.pdf" = false ∧
      pyEndsWith "m.pdf" ".pdf" = true ∧
      ∃ (s i j : Nat) (pi pj : List FileObs), i < j ∧
        ([[FileObs.mk "m.pdf" 3], [FileObs.mk "m.pdf" 3]] :
          List (List FileObs))[i]? = some pi ∧
        ([[FileObs.mk "m.pdf" 3], [FileObs.mk "m.pdf" 3]] :
          List (List FileObs))[j]? = some pj ∧
        FileObs.mk "m.pdf" s ∈ pi ∧ FileObs.mk "m.pdf" s ∈ pj) :=
  ⟨c1_detector_amended.1 [] [["a.pdf"]] "a.pdf" (by decide),
   c1_detector_amended.2 [] [[FileObs.mk "m.pdf" 3], [FileObs.mk "m.pdf" 3]]
     "m.pdf" (by decide) (by decide)⟩

/-- C4: an attempt whose detected download has size 0 deletes the file and
fails with `"Downloaded PDF was empty"`, distinct from an attempt whose
download never appears within the timeout, which fails with
`"Download did not complete in time"`.  The attempt is any one that
reached the trigger, whether the download was triggered from the direct
result PDF link or via the article-page fallback (no PDF link on the
result, article link followed, PDF link found on the article page): both
routes reach the same detection and empty-check code. -/
theorem c4_empty_vs_timeout (env : AutoEnv)
    (reference outputName finalDir : String) (fs : List String)
    (h1 : env.search = SearchStep.ok) (h2 : env.firstResult = FirstResultStep.ok)
    (h3 : env.pdfLink = PdfLinkStep.found ∨
      (env.pdfLink = PdfLinkStep.absent ∧ env.articleLinkPresent = true ∧
        (∃ b, env.openArticle = OpenArticleStep.opened b) ∧
        env.pageLink = PageLinkStep.found))
    (h4 : env.triggerErr = none) :
    (waitForNewFile env.existing env.polls = none →
      (downloadRun env reference outputName finalDir fs).result =
        Except.ok ⟨reference, false, "Download did not complete in time", none, none⟩) ∧
    (∀ f, waitForNewFile env.existing env.polls = some f →
      env.statSize = Except.ok 0 →
      (downloadRun env reference outputName finalDir fs).result =
        Except.ok ⟨reference, false, "Downloaded PDF was empty", none, none⟩ ∧
      f ∈ (downloadRun env reference outputName finalDir fs).deleted) := by
  rcases h3 with h3 | ⟨h3a, h3b, ⟨b, h3c⟩, h3d⟩
  · constructor
    · intro hw
      simp [downloadRun, h1, h2, h3, h4, hw]
    · intro f hw hs
      simp [downloadRun, h1, h2, h3, h4, hw, hs]
  · constructor
    · intro hw
      simp [downloadRun, h1, h2, h3a, h3b, h3c, h3d, h4, hw]
    · intro f hw hs
      simp [downloadRun, h1, h2, h3a, h3b, h3c, h3d, h4, hw, hs]

/-- Witness for C4 at concrete inputs: a run where nothing new ever
appears (direct PDF-link route), and a run through the article-page
fallback that detects a zero-byte file. -/
theorem c4_empty_vs_timeout_witness :
    ((downloadRun { polls := [[], []] } "r" "o" "d" []).result =
      Except.ok ⟨"r", false, "Download did not complete in time", none, none⟩) ∧
    ((downloadRun
        { pdfLink := PdfLinkStep.absent, polls := [["f.pdf"]],
          statSize := Except.ok 0 } "r" "o" "d" []).result =
      Except.ok ⟨"r", false, "Downloaded PDF was empty", none, none⟩ ∧
     "f.pdf" ∈ (downloadRun
        { pdfLink := PdfLinkStep.absent, polls := [["f.pdf"]],
          statSize := Except.ok 0 } "r" "o" "d" []).deleted) :=
  ⟨(c4_empty_vs_timeout { polls := [[], []] } "r" "o" "d" [] rfl rfl
      (Or.inl rfl) rfl).1 (by decide),
   (c4_empty_vs_timeout
      { pdfLink := PdfLinkStep.absent, polls := [["f.pdf"]],
        statSize := Except.ok 0 }
      "r" "o" "d" [] rfl rfl (Or.inr ⟨rfl, rfl, ⟨false, rfl⟩, rfl⟩) rfl).2
      "f.pdf" (by decide) rfl⟩

/-- C7 counterexample: running the aggregation twice on the identical list
of download-attempt results (sequentially, as two runs against the same
destination directory) does not produce an identical `RunSummary` - the
second run's missing-items report is deduplicated to `missing_pdfs_1.txt`,
so the two summaries differ. -/
theorem c7_counterexample :
    (aggregateResults ["Ref one"]
      [⟨1, "Ref one", "reference_001", "Ref one", none⟩]
      [⟨"Ref one", false, "msg", none, none⟩] [] []
      { manualEnabled := false, manualAuto := false, destination := "d",
        mergerAvailable := false } []).1.reportPath = some "d/missing_pdfs.txt" ∧
    (aggregateResults ["Ref one"]
      [⟨1, "Ref one", "reference_001", "Ref one", none⟩]
      [⟨"Ref one", false, "msg", none, none⟩] [] []
      { manualEnabled := false, manualAuto := false, destination := "d",
        mergerAvailable := false }
      (aggregateResults ["Ref one"]
        [⟨1, "Ref one", "reference_001", "Ref one", none⟩]
        [⟨"Ref one", false, "msg", none, none⟩] [] []
        { manualEnabled := false, manualAuto := false, destination := "d",
          mergerAvailable := false } []).2).1.reportPath =
      some "d/missing_pdfs_1.txt" ∧
    (aggregateResults ["Ref one"]
      [⟨1, "Ref one", "reference_001", "Ref one", none⟩]
      [⟨"Ref one", false, "msg", none, none⟩] [] []
      { manualEnabled := false, manualAuto := false, destination := "d",
        mergerAvailable := false }
      (aggregateResults ["Ref one"]
        [⟨1, "Ref one", "reference_001", "Ref one", none⟩]
        [⟨"Ref one", false, "msg", none, none⟩] [] []
        { manualEnabled := false, manualAuto := false, destination := "d",
          mergerAvailable := false } []).2).1 ≠
    (aggregateResults ["Ref one"]
      [⟨1, "Ref one", "reference_001", "Ref one", none⟩]
      [⟨"Ref one", false, "msg", none, none⟩] [] []
      { manualEnabled := false, manualAuto := false, destination := "d",
        mergerAvailable := false } []).1 := by
  decide

/-- C7 amended: re-running the aggregator on an identical list of
download-attempt results produces a `RunSummary` with identical counts and
failure enumeration (the core summary lines); the optional artifact paths
may differ because each run deduplicates them against the directory, and
the second run's artifact paths never collide with anything present after
the first run. -/
theorem c7_aggregate_amended (references : List String)
    (tasks : List ReferenceTask) (results : List DownloadResult)
    (retrySuccesses manualSuccesses : List ReferenceTask) (cfg : RunConfig)
    (fs : List String) :
    (aggregateResults references tasks results retrySuccesses manualSuccesses
      cfg (aggregateResults references tasks results retrySuccesses
        manualSuccesses cfg fs).2).1.coreLines =
      (aggregateResults references tasks results retrySuccesses manualSuccesses
        cfg fs).1.coreLines ∧
    (∀ p, (aggregateResults references tasks results retrySuccesses
      manualSuccesses cfg (aggregateResults references tasks results
        retrySuccesses manualSuccesses cfg fs).2).1.reportPath = some p →
      p ∉ (aggregateResults references tasks results retrySuccesses
        manualSuccesses cfg fs).2) ∧
    (∀ p, (aggregateResults references tasks results retrySuccesses
      manualSuccesses cfg (aggregateResults references tasks results
        retrySuccesses manualSuccesses cfg fs).2).1.combinedPath = some p →
      p ∉ (aggregateResults references tasks results retrySuccesses
        manualSuccesses cfg fs).2) := by
  refine ⟨rfl, ?_, ?_⟩
  · intro p h
    exact aggregateResults_reportPath_fresh _ _ _ _ _ _ _ _ h
  · intro p h
    exact aggregateResults_combined_fresh _ _ _ _ _ _ _ _ h

/-- A `dropWhile` result starts with an element failing the predicate. -/
theorem dropWhile_head_false {α : Type} {p : α → Bool} :
    ∀ (l : List α) (c : α) (t : List α), l.dropWhile p = c :: t → p c = false := by
  intro l
  induction l with
  | nil => intro c t h; simp at h
  | cons x xs ih =>
    intro c t h
    rw [List.dropWhile_cons] at h
    by_cases hx : p x = true
    · rw [if_pos hx] at h
      exact ih c t h
    · rw [if_neg hx] at h
      have hxc : x = c := (List.cons.inj h).1
      rw [← hxc]
      exact Bool.eq_false_iff.mpr hx

/-- Stripping leaves a string whose first character is not whitespace. -/
theorem stripL_head_false (l : List Char) (c : Char) (t : List Char)
    (h : stripL l = c :: t) : isPySpace c = false := by
  unfold stripL at h
  have hsfx : (l.dropWhile isPySpace).reverse.dropWhile isPySpace <:+
      (l.dropWhile isPySpace).reverse := List.dropWhile_suffix _
  have hpre : ((l.dropWhile isPySpace).reverse.dropWhile isPySpace).reverse <+:
      l.dropWhile isPySpace := by
    have := List.reverse_prefix.mpr hsfx
    simpa using this
  obtain ⟨t2, ht2⟩ := hpre
  rw [h] at ht2
  exact dropWhile_head_false l c (t ++ t2) ht2.symm

/-- A non-whitespace member survives `dropWhile isPySpace`. -/
theorem mem_dropWhile_not_space (l : List Char) (x : Char) (hx : x ∈ l)
    (hns : isPySpace x = false) : x ∈ l.dropWhile isPySpace := by
  induction l with
  | nil => simp at hx
  | cons y ys ih =>
    rw [List.dropWhile_cons]
    by_cases hy : isPySpace y = true
    · rw [if_pos hy]
      rcases List.mem_cons.mp hx with rfl | hmem
      · rw [hy] at hns; cases hns
      · exact ih hmem
    · rw [if_neg hy]
      exact hx

/-- A list with a non-whitespace member does not strip to nothing. -/
theorem stripL_ne_nil (l : List Char) (x : Char) (hx : x ∈ l)
    (hns : isPySpace x = false) : stripL l ≠ [] := by
  intro h
  unfold stripL at h
  rw [List.reverse_eq_nil_iff, List.dropWhile_eq_nil_iff] at h
  have hmem : x ∈ (l.dropWhile isPySpace).reverse :=
    List.mem_reverse.mpr (mem_dropWhile_not_space l x hx hns)
  have := h x hmem
  rw [hns] at this
  cases this

/-- Whitespace collapsing keeps every non-whitespace character. -/
theorem mem_collapseWsGo (x : Char) (hns : isPySpace x = false) :
    ∀ (b : Bool) (l : List Char), x ∈ l → x ∈ collapseWsGo b l := by
  intro b l
  induction l generalizing b with
  | nil => intro h; simp at h
  | cons c rest ih =>
    intro hx
    unfold collapseWsGo
    by_cases hc : isPySpace c = true
    · rw [if_pos hc]
      have hmem : x ∈ rest := by
        rcases List.mem_cons.mp hx with rfl | hmem
        · rw [hc] at hns; cases hns
        · exact hmem
      by_cases hb : b = true
      · rw [if_pos hb]
        exact ih true hmem
      · rw [if_neg hb]
        exact List.mem_cons_of_mem _ (ih true hmem)
    · rw [if_neg hc]
      rcases List.mem_cons.mp hx with rfl | hmem
      · exact List.mem_cons_self _ _
      · exact List.mem_cons_of_mem _ (ih false hmem)

/-- The whitespace-collapsed, stripped form of a lead-stripped non-empty
reference is non-empty. -/
theorem normalized_ne_nil (d : List Char) (h : stripReferenceLeadL d ≠ []) :
    stripL (collapseWsL (stripReferenceLeadL d)) ≠ [] := by
  obtain ⟨c, t, hct⟩ := List.exists_cons_of_ne_nil h
  have hcs : isPySpace c = false := by
    unfold stripReferenceLeadL at hct
    exact stripL_head_false _ c t hct
  have hmem : c ∈ collapseWsL (stripReferenceLeadL d) := by
    unfold collapseWsL
    exact mem_collapseWsGo c hcs false _ (hct ▸ List.mem_cons_self _ _)
  exact stripL_ne_nil _ c hmem hcs

/-- Trailing-punctuation stripping keeps a string whose head is not
punctuation. -/
theorem rstripCharsL_ne_nil (chars : List Char) (c : Char) (t : List Char)
    (hc : c ∉ chars) : rstripCharsL chars (c :: t) ≠ [] := by
  intro h
  unfold rstripCharsL at h
  rw [List.reverse_eq_nil_iff, List.dropWhile_eq_nil_iff] at h
  have := h c (List.mem_reverse.mpr (List.mem_cons_self _ _))
  simp at this
  exact hc this

/-- Shape of a `searchSub` result: the `take` of a match at some
position. -/
theorem searchSub_eq (matchLen : List Char → Option Nat) :
    ∀ (l m : List Char), searchSub matchLen l = some m →
      ∃ l2 n, matchLen l2 = some n ∧ m = l2.take n := by
  intro l
  induction l with
  | nil =>
    intro m h
    unfold searchSub at h
    split at h
    · exact ⟨[], _, by assumption, by simpa using h.symm⟩
    · cases h
  | cons c rest ih =>
    intro m h
    unfold searchSub at h
    split at h
    · exact ⟨c :: rest, _, by assumption, by simpa using h.symm⟩
    · exact ih m h

/-- A DOI match starts with the literal `1` and is non-empty. -/
theorem doiMatchLen_shape (l : List Char) (n : Nat)
    (h : doiMatchLen l = some n) : (∃ r, l = '1' :: r) ∧ 0 < n := by
  unfold doiMatchLen at h
  split at h
  · constructor
    · exact ⟨_, rfl⟩
    · dsimp only at h
      repeat' split at h
      all_goals (try cases h)
      all_goals omega
  · cases h

/-- A URL match starts with a character lowering to `h` and is
non-empty. -/
theorem urlMatchLen_shape (l : List Char) (n : Nat)
    (h : urlMatchLen l = some n) :
    (∃ c r, l = c :: r ∧ c.toLower = 'h') ∧ 0 < n := by
  unfold urlMatchLen at h
  split at h
  · rename_i c1 c2 c3 c4 rest
    split at h
    · rename_i hlow
      refine ⟨⟨c1, _, rfl, ?_⟩, ?_⟩
      · simp only [Bool.and_eq_true, decide_eq_true_eq] at hlow
        exact hlow.1.1.1
      · repeat' split at h
        all_goals simp_all
        all_goals omega
    · cases h
  · cases h

/-- No trailing-punctuation character lowers to `h`. -/
theorem toLower_h_not_punct (c : Char) (hc : c.toLower = 'h') :
    c ∉ trailingPunctuation := by
  intro hmem
  unfold trailingPunctuation at hmem
  fin_cases hmem <;> exact absurd hc (by decide)

/-- The digit `1` is not trailing punctuation. -/
theorem one_not_punct : ('1' : Char) ∉ trailingPunctuation := by decide

/-- An intercalation whose first part is non-empty is non-empty. -/
theorem joinSp_ne_nil (x : List Char) (r : List (List Char)) (hx : x ≠ []) :
    joinSp (x :: r) ≠ [] := by
  unfold joinSp
  cases r with
  | nil => simpa [List.intercalate] using hx
  | cons y r2 =>
    simp only [List.intercalate, List.intersperse_cons_cons, List.flatten_cons]
    intro h
    rw [List.append_eq_nil] at h
    exact hx h.1

/-- A string built from a non-empty character list is not the empty
string, and conversely. -/
theorem mk_ne_empty_iff (l : List Char) : (⟨l⟩ : String) ≠ "" ↔ l ≠ [] := by
  constructor
  · intro hne hl
    exact hne (String.ext hl)
  · intro hl hne
    exact hl (congrArg String.data hne)

/-- A non-empty list is not `isEmpty`. -/
theorem isEmpty_false_of_ne_nil {α : Type} {l : List α} (h : l ≠ []) :
    l.isEmpty = false := by
  cases l with
  | nil => exact absurd rfl h
  | cons a t => rfl

/-- Python `dict.fromkeys` keeps the first key first. -/
theorem dedupKeepFirst_cons (x : List Char) (rest : List (List Char)) :
    dedupKeepFirst (x :: rest) = x :: dedupKeepFirstGo [x] rest := by
  show (if x ∈ ([] : List (List Char)) then dedupKeepFirstGo [] rest
    else x :: dedupKeepFirstGo [x] rest) = x :: dedupKeepFirstGo [x] rest
  rw [if_neg (List.not_mem_nil x)]

/-- Shape of the query components when the normalized reference is
non-empty: it is the first component. -/
theorem buildQueryComponents_shape (reference cleaned : List Char)
    (h : stripL (collapseWsL cleaned) ≠ []) :
    ∃ rest, buildQueryComponents reference cleaned =
      stripL (collapseWsL cleaned) :: rest := by
  unfold buildQueryComponents
  dsimp only
  rw [isEmpty_false_of_ne_nil h]
  simp only [Bool.false_eq_true, if_false]
  exact ⟨_, rfl⟩

/-- Core of C6 on character lists: a non-empty lead-stripped reference
yields a non-empty search query. -/
theorem buildSearchQueryL_ne_nil (d : List Char)
    (h : stripReferenceLeadL d ≠ []) : buildSearchQueryL d ≠ [] := by
  unfold buildSearchQueryL
  dsimp only
  rw [isEmpty_false_of_ne_nil h]
  simp only [Bool.false_eq_true, if_false]
  cases hdoi : doiSearch (stripReferenceLeadL d) with
  | some m =>
    simp only [hdoi]
    obtain ⟨l2, n, hml, hm⟩ := searchSub_eq doiMatchLen _ m hdoi
    obtain ⟨⟨r, rfl⟩, hn⟩ := doiMatchLen_shape l2 n hml
    cases n with
    | zero => omega
    | succ n1 =>
      rw [hm, List.take_succ_cons]
      unfold stripTrailingPunctuationL
      exact rstripCharsL_ne_nil _ '1' _ one_not_punct
  | none =>
    simp only [hdoi]
    cases hurl : urlSearch (stripReferenceLeadL d) with
    | some m =>
      simp only [hurl]
      obtain ⟨l2, n, hml, hm⟩ := searchSub_eq urlMatchLen _ m hurl
      obtain ⟨⟨c, r, rfl, hlow⟩, hn⟩ := urlMatchLen_shape l2 n hml
      cases n with
      | zero => omega
      | succ n1 =>
        rw [hm, List.take_succ_cons]
        unfold stripTrailingPunctuationL
        exact rstripCharsL_ne_nil _ c _ (toLower_h_not_punct c hlow)
    | none =>
      simp only [hurl]
      obtain ⟨rest, hcomps⟩ :=
        buildQueryComponents_shape d (stripReferenceLeadL d)
          (normalized_ne_nil d h)
      rw [hcomps]
      simp only [List.isEmpty_cons, Bool.false_eq_true, if_false]
      rw [dedupKeepFirst_cons]
      exact joinSp_ne_nil _ _ (normalized_ne_nil d h)

/-- Step equation of the parser loop on a blank line. -/
theorem extractRefsGo_cons_blank (refs current line rest)
    (hs : (stripL line).isEmpty = true) :
    extractRefsGo refs current (line :: rest) =
      if current.isEmpty then extractRefsGo refs current rest
      else extractRefsGo (refs ++ [joinSp current]) [] rest := by
  conv_lhs => unfold extractRefsGo
  dsimp only
  rw [if_pos hs]

/-- Step equation of the parser loop on a numbering-lead line. -/
theorem extractRefsGo_cons_lead (refs current line rest)
    (hs : (stripL line).isEmpty = false)
    (hl : ((refLeadLen (stripL line)).isSome ||
        (looseLeadLen (stripL line)).isSome) = true) :
    extractRefsGo refs current (line :: rest) =
      extractRefsGo (if current.isEmpty then refs else refs ++ [joinSp current])
        [stripReferenceLeadL (stripL line)] rest := by
  conv_lhs => unfold extractRefsGo
  dsimp only
  rw [if_neg (by simp [hs]), if_pos hl]

/-- Step equation of the parser loop on an ordinary line. -/
theorem extractRefsGo_cons_plain (refs current line rest)
    (hs : (stripL line).isEmpty = false)
    (hl : ((refLeadLen (stripL line)).isSome ||
        (looseLeadLen (stripL line)).isSome) = false) :
    extractRefsGo refs current (line :: rest) =
      extractRefsGo refs (current ++ [stripL line]) rest := by
  conv_lhs => unfold extractRefsGo
  dsimp only
  rw [if_neg (by simp [hs]), if_neg (by simp [hl])]

/-- Step equation of the grouping device on a dropped line. -/
theorem refGroupsGo_cons_blank (current line rest)
    (h : processedLine line = none) :
    refGroupsGo current (line :: rest) =
      if current.isEmpty then refGroupsGo [] rest
      else current :: refGroupsGo [] rest := by
  conv_lhs => unfold refGroupsGo
  rw [h]

/-- Step equation of the grouping device on a group-opening line. -/
theorem refGroupsGo_cons_lead (current line rest v)
    (h : processedLine line = some (true, v)) :
    refGroupsGo current (line :: rest) =
      if current.isEmpty then refGroupsGo [v] rest
      else current :: refGroupsGo [v] rest := by
  conv_lhs => unfold refGroupsGo
  rw [h]

/-- Step equation of the grouping device on a kept line. -/
theorem refGroupsGo_cons_keep (current line rest v)
    (h : processedLine line = some (false, v)) :
    refGroupsGo current (line :: rest) = refGroupsGo (current ++ [v]) rest := by
  conv_lhs => unfold refGroupsGo
  rw [h]

/-- A line is dropped exactly when it strips to nothing. -/
theorem processedLine_none_iff (line : List Char) :
    processedLine line = none ↔ stripL line = [] := by
  unfold processedLine
  dsimp only
  cases hstrip : stripL line with
  | nil => simp
  | cons a t =>
    simp only [List.isEmpty_cons, Bool.false_eq_true, if_false]
    constructor
    · intro h
      split at h <;> cases h
    · intro h
      cases h

/-- The parser loop is the accumulator followed by the space-joined
groups. -/
theorem extractRefsGo_eq :
    ∀ (lines refs current : List (List Char)),
      extractRefsGo refs current lines =
        refs ++ (refGroupsGo current lines).map joinSp := by
  intro lines
  induction lines with
  | nil =>
    intro refs current
    cases current with
    | nil => simp [extractRefsGo, refGroupsGo]
    | cons a t => simp [extractRefsGo, refGroupsGo]
  | cons line rest ih =>
    intro refs current
    by_cases hs : (stripL line).isEmpty = true
    · rw [extractRefsGo_cons_blank refs current line rest hs,
        refGroupsGo_cons_blank current line rest
          ((processedLine_none_iff line).mpr (by
            cases hx : stripL line with
            | nil => rfl
            | cons a t => rw [hx] at hs; cases hs))]
      cases current with
      | nil =>
        simp only [List.isEmpty_nil, if_true]
        exact ih refs []
      | cons a t =>
        simp only [List.isEmpty_cons, Bool.false_eq_true, if_false,
          List.map_cons]
        rw [ih (refs ++ [joinSp (a :: t)]) []]
        simp
    · have hs2 : (stripL line).isEmpty = false := by
        cases hx : (stripL line).isEmpty with
        | true => exact absurd hx hs
        | false => rfl
      by_cases hl : ((refLeadLen (stripL line)).isSome ||
          (looseLeadLen (stripL line)).isSome) = true
      · have hp : processedLine line =
            some (true, stripReferenceLeadL (stripL line)) := by
          unfold processedLine
          dsimp only
          rw [if_neg (by simp [hs2]), if_pos hl]
        rw [extractRefsGo_cons_lead refs current line rest hs2 hl,
          refGroupsGo_cons_lead current line rest _ hp]
        cases current with
        | nil =>
          simp only [List.isEmpty_nil, if_true]
          exact ih refs [stripReferenceLeadL (stripL line)]
        | cons a t =>
          simp only [List.isEmpty_cons, Bool.false_eq_true, if_false,
            List.map_cons]
          rw [ih (refs ++ [joinSp (a :: t)]) [stripReferenceLeadL (stripL line)]]
          simp
      · have hl2 : ((refLeadLen (stripL line)).isSome ||
            (looseLeadLen (stripL line)).isSome) = false := by
          cases hx : ((refLeadLen (stripL line)).isSome ||
              (looseLeadLen (stripL line)).isSome) with
          | true => exact absurd hx hl
          | false => rfl
        have hp : processedLine line = some (false, stripL line) := by
          unfold processedLine
          dsimp only
          rw [if_neg (by simp [hs2]), if_neg (by simp [hl2])]
        rw [extractRefsGo_cons_plain refs current line rest hs2 hl2,
          refGroupsGo_cons_keep current line rest _ hp]
        exact ih refs (current ++ [stripL line])

/-- Flattening the groups recovers the kept lines in order. -/
theorem refGroupsGo_flatten :
    ∀ (lines current : List (List Char)),
      (refGroupsGo current lines).flatten =
        current ++ lines.filterMap
          (fun l => (processedLine l).map Prod.snd) := by
  intro lines
  induction lines with
  | nil =>
    intro current
    cases current with
    | nil => simp [refGroupsGo]
    | cons a t => simp [refGroupsGo]
  | cons line rest ih =>
    intro current
    cases hp : processedLine line with
    | none =>
      rw [refGroupsGo_cons_blank current line rest hp]
      cases current with
      | nil => simp [List.filterMap_cons, hp, ih []]
      | cons a t => simp [List.filterMap_cons, hp, ih []]
    | some bv =>
      obtain ⟨b, v⟩ := bv
      cases b with
      | true =>
        rw [refGroupsGo_cons_lead current line rest v hp]
        cases current with
        | nil => simp [List.filterMap_cons, hp, ih [v]]
        | cons a t => simp [List.filterMap_cons, hp, ih [v]]
      | false =>
        rw [refGroupsGo_cons_keep current line rest v hp]
        simp [List.filterMap_cons, hp, ih (current ++ [v])]

/-- A loop started on a non-empty accumulator emits a group. -/
theorem refGroupsGo_ne_nil :
    ∀ (lines current : List (List Char)), current ≠ [] →
      refGroupsGo current lines ≠ [] := by
  intro lines
  induction lines with
  | nil =>
    intro current hc
    simp [refGroupsGo, isEmpty_false_of_ne_nil hc]
  | cons line rest ih =>
    intro current hc
    cases hp : processedLine line with
    | none =>
      rw [refGroupsGo_cons_blank current line rest hp,
        isEmpty_false_of_ne_nil hc]
      simp
    | some bv =>
      obtain ⟨b, v⟩ := bv
      cases b with
      | true =>
        rw [refGroupsGo_cons_lead current line rest v hp,
          isEmpty_false_of_ne_nil hc]
        simp
      | false =>
        rw [refGroupsGo_cons_keep current line rest v hp]
        exact ih (current ++ [v]) (by simp)

/-- No group is emitted exactly when every line strips to nothing. -/
theorem refGroupsGo_nil_iff :
    ∀ (lines : List (List Char)),
      refGroupsGo [] lines = [] ↔ ∀ l ∈ lines, stripL l = [] := by
  intro lines
  induction lines with
  | nil => simp [refGroupsGo]
  | cons line rest ih =>
    cases hp : processedLine line with
    | none =>
      have hemp : ([] : List (List Char)).isEmpty = true := rfl
      rw [refGroupsGo_cons_blank [] line rest hp, if_pos hemp, ih]
      constructor
      · intro h l hl
        rcases List.mem_cons.mp hl with rfl | hm
        · exact (processedLine_none_iff l).mp hp
        · exact h l hm
      · intro h l hl
        exact h l (List.mem_cons_of_mem _ hl)
    | some bv =>
      obtain ⟨b, v⟩ := bv
      have hline : stripL line ≠ [] := by
        intro h0
        rw [(processedLine_none_iff line).mpr h0] at hp
        cases hp
      cases b with
      | true =>
        have hemp : ([] : List (List Char)).isEmpty = true := rfl
        rw [refGroupsGo_cons_lead [] line rest v hp, if_pos hemp]
        refine iff_of_false (refGroupsGo_ne_nil rest [v] (by simp)) ?_
        intro h
        exact hline (h line (List.mem_cons_self _ _))
      | false =>
        rw [refGroupsGo_cons_keep [] line rest v hp]
        refine iff_of_false (refGroupsGo_ne_nil rest ([] ++ [v]) (by simp)) ?_
        intro h
        exact hline (h line (List.mem_cons_self _ _))

/-- Mapping over a list gives the empty list only from the empty list. -/
theorem map_nil_iff {α β : Type} (f : α → β) (l : List α) :
    l.map f = [] ↔ l = [] := by
  cases l <;> simp

/-- The parser equals the space-joined groups. -/
theorem extractReferencesL_eq (text : List Char) :
    extractReferencesL text = (refGroups text).map joinSp := by
  unfold extractReferencesL refGroups
  simpa using extractRefsGo_eq (splitlinesL text) [] []

/-- The parser returns no record exactly when every line is blank. -/
theorem extract_references_nil_iff (text : String) :
    extract_references text = [] ↔
      ∀ l ∈ splitlinesL text.data, stripL l = [] := by
  unfold extract_references
  rw [map_nil_iff, extractReferencesL_eq, map_nil_iff]
  exact refGroupsGo_nil_iff (splitlinesL text.data)

/-- C5 counterexample: the whitespace-only text `"\n"` is a non-empty
input on which the parser emits no record at all, and the record produced
for the line `"[1] Alpha"` is `"Alpha"`, so record texts do not preserve
the non-blank input lines exactly. -/
theorem c5_counterexample :
    ("\n" : String) ≠ "" ∧ extract_references "\n" = [] ∧
    extract_references "[1] Alpha" = ["Alpha"] := by decide

/-- C5 (amended): the parser never fails and returns the empty record
list exactly when every input line strips to blank (so a non-empty but
whitespace-only text yields no record); on empty input it returns the
empty sequence; the records are precisely the space-joins of the groups
of contiguous kept lines, where groups break at blank lines and in front
of numbering-lead lines; and flattening those groups preserves, in
order, every non-blank line after stripping, with a lead-opening line
contributing its lead-stripped text — so the trailing accumulator is
emitted even without a trailing blank line. -/
theorem c5_parser_amended :
    extract_references "" = [] ∧
    (∀ text : String,
        extractReferencesL text.data = (refGroups text.data).map joinSp) ∧
    (∀ text : String,
        (refGroups text.data).flatten =
          (splitlinesL text.data).filterMap
            (fun l => (processedLine l).map Prod.snd)) ∧
    (∀ text : String, extract_references text = [] ↔
        ∀ l ∈ splitlinesL text.data, stripL l = []) := by
  refine ⟨rfl, ?_, ?_, ?_⟩
  · intro text
    exact extractReferencesL_eq text.data
  · intro text
    unfold refGroups
    simpa using refGroupsGo_flatten (splitlinesL text.data) []
  · intro text
    exact extract_references_nil_iff text

/-- Witness for C5 on a whitespace-only text. -/
theorem c5_parser_amended_witness :
    extract_references "  \n \n" = [] :=
  (c5_parser_amended.2.2.2 "  \n \n").mpr (by decide)

/-- Element lookup of a replicated list below its length. -/
theorem replicate_get? {α : Type} (a : α) :
    ∀ (n j : Nat), j < n → (List.replicate n a)[j]? = some a := by
  intro n
  induction n with
  | zero => intro j h; omega
  | succ m ih =>
    intro j h
    cases j with
    | zero => simp [List.replicate_succ]
    | succ i =>
      simpa [List.replicate_succ] using ih i (by omega)

/-- Pointwise description of the exception handler `fillUnfilled`: a
filled slot is kept, an unfilled one receives the synthetic failure for
its task. -/
theorem fillUnfilled_get? (tasks : List ReferenceTask) (msg : String) :
    ∀ (rs : List (Option DownloadResult)) (idx j : Nat),
      (fillUnfilled tasks msg idx rs)[j]? =
        (rs[j]?).map (fun r =>
          match r with
          | some dr => dr
          | none =>
            ⟨(match tasks[idx + j]? with
              | some t => t.reference
              | none => "Initialization"), false, msg, none, none⟩) := by
  intro rs
  induction rs with
  | nil => intro idx j; simp [fillUnfilled]
  | cons r rest ih =>
    intro idx j
    cases j with
    | zero =>
      cases r with
      | some dr => simp [fillUnfilled]
      | none => simp [fillUnfilled]
    | succ i =>
      have hidx : idx + 1 + i = idx + (i + 1) := by omega
      simp only [fillUnfilled, List.getElem?_cons_succ]
      rw [ih (idx + 1) i, hidx]

/-- The Phase-1 loop attempts exactly the non-duplicate tasks, in order,
when it does not abort. -/
theorem phase1_attempts (world : Nat → Nat → AutoEnv) (dest : String) :
    ∀ (tasks : List ReferenceTask) (st st1 : Phase1State),
      phase1 world dest tasks st = Except.ok st1 →
      st1.attempts = st.attempts ++
        ((tasks.filter (fun t => t.duplicate_of.isNone)).map
          (fun t => t.index)) := by
  intro tasks
  induction tasks with
  | nil =>
    intro st st1 h
    unfold phase1 at h
    simp only [Except.ok.injEq] at h
    subst h
    simp
  | cons task rest ih =>
    intro st st1 h
    unfold phase1 at h
    cases hdup : task.duplicate_of with
    | some k =>
      rw [hdup] at h
      dsimp only at h
      rw [ih _ _ h]
      simp [List.filter_cons, hdup]
    | none =>
      rw [hdup] at h
      dsimp only at h
      cases hres : (downloadRun (world 1 task.index) task.reference
          task.output_name dest st.fs).result with
      | error e => rw [hres] at h; cases h
      | ok r =>
        rw [hres] at h
        dsimp only at h
        rw [ih _ _ h]
        simp [List.filter_cons, hdup, List.append_assoc]

/-- A Phase-1 escaping exception aborts the run with its message. -/
theorem runDownloads_p1_error_aborted (refs : List String)
    (world : Nat → Nat → AutoEnv) (menv : Nat → ManualEnv) (cfg : RunConfig)
    (fs0 : List String) (e : String) (st : Phase1State)
    (h1 : phase1 world cfg.destination (buildTasks refs)
      ⟨List.replicate (buildTasks refs).length none, [], [], fs0⟩ =
        Except.error (e, st)) :
    (runDownloads refs (Except.ok ()) world menv cfg fs0).aborted = some e := by
  unfold runDownloads
  dsimp only
  rw [h1]

/-- A Phase-2 escaping exception aborts the run with its message. -/
theorem runDownloads_p2_error_aborted (refs : List String)
    (world : Nat → Nat → AutoEnv) (menv : Nat → ManualEnv) (cfg : RunConfig)
    (fs0 : List String) (st1 : Phase1State) (e : String) (st2 : Phase2State)
    (h1 : phase1 world cfg.destination (buildTasks refs)
      ⟨List.replicate (buildTasks refs).length none, [], [], fs0⟩ =
        Except.ok st1)
    (h2 : phase2 world cfg.destination st1.cands ⟨st1.res, [], [], st1.fs⟩ =
        Except.error (e, st2)) :
    (runDownloads refs (Except.ok ()) world menv cfg fs0).aborted = some e := by
  unfold runDownloads
  dsimp only
  rw [h1]
  dsimp only
  rw [h2]

/-- The run outcome when both automatic phases return normally. -/
theorem runDownloads_ok_outcome (refs : List String)
    (world : Nat → Nat → AutoEnv) (menv : Nat → ManualEnv) (cfg : RunConfig)
    (fs0 : List String) (st1 : Phase1State) (st2 : Phase2State)
    (h1 : phase1 world cfg.destination (buildTasks refs)
      ⟨List.replicate (buildTasks refs).length none, [], [], fs0⟩ =
        Except.ok st1)
    (h2 : phase2 world cfg.destination st1.cands ⟨st1.res, [], [], st1.fs⟩ =
        Except.ok st2) :
    runDownloads refs (Except.ok ()) world menv cfg fs0 =
      (let m : ManualPhaseOut :=
        if cfg.manualEnabled then
          runManualFallback menv cfg.manualAuto cfg.downloadsMkdirErr
            (buildTasks refs) st2.res cfg.destination st2.fs
        else ⟨st2.res, [], [], st2.fs⟩
       let results :=
        if !m.res.isEmpty && m.res.all Option.isSome then m.res.reduceOption
        else [⟨"Initialization", false, "Downloader did not start", none, none⟩]
       let ag := aggregateResults refs (buildTasks refs) results st2.succ
         m.succ cfg m.fs
       ⟨buildTasks refs, results, st1.res, st1.cands, st1.attempts,
         st2.attempts, m.attempts, st2.succ, m.succ, none, ag.1, ag.2⟩) := by
  unfold runDownloads
  dsimp only
  rw [h1]
  dsimp only
  rw [h2]

/-- String concatenation is associative. -/
theorem string_append_assoc (x y z : String) :
    (x ++ y) ++ z = x ++ (y ++ z) := by
  apply String.ext
  simp [List.append_assoc]

/-- `_merge_failure_messages` on two non-empty reasons produces the
two-part format. -/
theorem mergeFailureMessages_both (a b : String) (ha : a ≠ "") (hb : b ≠ "") :
    mergeFailureMessages a b =
      "initial attempt: " ++ a ++ "; retry attempt: " ++ b := by
  unfold mergeFailureMessages
  dsimp only
  rw [if_pos ha, if_pos hb]
  show (("initial attempt: " ++ a) ++ "; ") ++ ("retry attempt: " ++ b) = _
  apply String.ext
  simp [List.append_assoc]

/-- A completed retry pass leaves a slot unchanged when no non-duplicate
candidate writes to it. -/
theorem phase2_preserves_slot (world : Nat → Nat → AutoEnv) (dest : String)
    (slot : Nat) :
    ∀ (cands : List (Nat × ReferenceTask × DownloadResult))
      (st st' : Phase2State),
      phase2 world dest cands st = Except.ok st' →
      (∀ q ∈ cands, q.2.1.duplicate_of = none → q.1 ≠ slot) →
      st'.res[slot]? = st.res[slot]? := by
  intro cands
  induction cands with
  | nil =>
    intro st st' h hq
    unfold phase2 at h
    simp only [Except.ok.injEq] at h
    subst h
    rfl
  | cons q rest ih =>
    obtain ⟨qslot, qtask, qfr⟩ := q
    intro st st' h hq
    unfold phase2 at h
    cases hqd : qtask.duplicate_of with
    | some k =>
      rw [hqd] at h
      rw [if_pos Option.isSome_some] at h
      exact ih st st' h (fun q hm hd => hq q (List.mem_cons_of_mem _ hm) hd)
    | none =>
      rw [hqd] at h
      rw [if_neg (by simp)] at h
      dsimp only at h
      cases hres : (downloadRun (world 2 qtask.index) qtask.reference
          qtask.output_name dest st.fs).result with
      | error e => rw [hres] at h; cases h
      | ok r2 =>
        rw [hres] at h
        dsimp only at h
        have hne : qslot ≠ slot :=
          hq (qslot, qtask, qfr) (List.mem_cons_self _ _) hqd
        by_cases hsucc : r2.success = true
        · rw [if_pos hsucc] at h
          rw [ih _ st' h (fun q hm hd => hq q (List.mem_cons_of_mem _ hm) hd)]
          exact List.getElem?_set_ne hne
        · rw [if_neg hsucc] at h
          rw [ih _ st' h (fun q hm hd => hq q (List.mem_cons_of_mem _ hm) hd)]
          exact List.getElem?_set_ne hne

/-- A non-duplicate retry candidate's slot, untouched afterwards, ends
holding its own retry result: on success the message is replaced by
`"Downloaded on retry"`, on failure by the merged failure messages. -/
theorem phase2_slot (world : Nat → Nat → AutoEnv) (dest : String) :
    ∀ (pre post : List (Nat × ReferenceTask × DownloadResult)) (slot : Nat)
      (task : ReferenceTask) (firstResult : DownloadResult)
      (st st' : Phase2State),
      phase2 world dest (pre ++ (slot, task, firstResult) :: post) st =
        Except.ok st' →
      task.duplicate_of = none →
      slot < st.res.length →
      (∀ q ∈ post, q.2.1.duplicate_of = none → q.1 ≠ slot) →
      ∃ r2 : DownloadResult,
        st'.res[slot]? =
          some (some (if r2.success then
            { r2 with message := "Downloaded on retry" }
          else
            { r2 with message :=
              mergeFailureMessages firstResult.message r2.message })) := by
  intro pre
  induction pre with
  | nil =>
    intro post slot task firstResult st st' h hdup hlen hpost
    simp only [List.nil_append] at h
    unfold phase2 at h
    rw [hdup] at h
    rw [if_neg (by simp)] at h
    dsimp only at h
    cases hres : (downloadRun (world 2 task.index) task.reference
        task.output_name dest st.fs).result with
    | error e => rw [hres] at h; cases h
    | ok r2 =>
      rw [hres] at h
      dsimp only at h
      refine ⟨r2, ?_⟩
      by_cases hsucc : r2.success = true
      · rw [if_pos hsucc] at h
        rw [phase2_preserves_slot world dest slot post _ st' h hpost,
          if_pos hsucc]
        exact List.getElem?_set_eq_of_lt _ hlen
      · rw [if_neg hsucc] at h
        rw [phase2_preserves_slot world dest slot post _ st' h hpost,
          if_neg hsucc]
        exact List.getElem?_set_eq_of_lt _ hlen
  | cons q pre ih =>
    obtain ⟨qslot, qtask, qfr⟩ := q
    intro post slot task firstResult st st' h hdup hlen hpost
    simp only [List.cons_append] at h
    unfold phase2 at h
    cases hqd : qtask.duplicate_of with
    | some k =>
      rw [hqd] at h
      rw [if_pos Option.isSome_some] at h
      exact ih post slot task firstResult st st' h hdup hlen hpost
    | none =>
      rw [hqd] at h
      rw [if_neg (by simp)] at h
      dsimp only at h
      cases hres : (downloadRun (world 2 qtask.index) qtask.reference
          qtask.output_name dest st.fs).result with
      | error e => rw [hres] at h; cases h
      | ok r2 =>
        rw [hres] at h
        dsimp only at h
        by_cases hsucc : r2.success = true
        · rw [if_pos hsucc] at h
          exact ih post slot task firstResult _ st' h hdup
            (by simpa using hlen) hpost
        · rw [if_neg hsucc] at h
          exact ih post slot task firstResult _ st' h hdup
            (by simpa using hlen) hpost

/-- The position of a task in `buildTasksGo` determines its index. -/
theorem buildTasksGo_index :
    ∀ (refs : List String) (idx : Nat) (seen : List (String × Nat)) (j : Nat)
      (h : j < (buildTasksGo idx seen refs).length),
      (buildTasksGo idx seen refs)[j].index = idx + j := by
  intro refs
  induction refs with
  | nil => intro idx seen j h; simp [buildTasksGo] at h
  | cons reference rest ih =>
    intro idx seen j h
    unfold buildTasksGo at h ⊢
    cases hsig : build_reference_signature reference (derive_title reference) with
    | some sig =>
      cases hfind : seen.find? (fun e => e.1 = sig) with
      | some e =>
        simp only [hsig, hfind] at h ⊢
        cases j with
        | zero => rfl
        | succ j1 =>
          have hih := ih (idx + 1) seen j1 (by simpa using h)
          simp only [List.getElem_cons_succ]
          rw [hih]
          omega
      | none =>
        simp only [hsig, hfind] at h ⊢
        cases j with
        | zero => rfl
        | succ j1 =>
          have hih := ih (idx + 1) ((sig, idx) :: seen) j1 (by simpa using h)
          simp only [List.getElem_cons_succ]
          rw [hih]
          omega
    | none =>
      simp only [hsig] at h ⊢
      cases j with
      | zero => rfl
      | succ j1 =>
        have hih := ih (idx + 1) seen j1 (by simpa using h)
        simp only [List.getElem_cons_succ]
        rw [hih]
        omega

/-- Two tasks of one run with the same index are the same task. -/
theorem buildTasks_index_inj (refs : List String) (t1 t2 : ReferenceTask)
    (h1 : t1 ∈ buildTasks refs) (h2 : t2 ∈ buildTasks refs)
    (hidx : t1.index = t2.index) : t1 = t2 := by
  obtain ⟨j1, hj1, hg1⟩ := List.mem_iff_getElem.mp h1
  obtain ⟨j2, hj2, hg2⟩ := List.mem_iff_getElem.mp h2
  have e1 : (buildTasks refs)[j1].index = 1 + j1 :=
    buildTasksGo_index refs 1 [] j1 hj1
  have e2 : (buildTasks refs)[j2].index = 1 + j2 :=
    buildTasksGo_index refs 1 [] j2 hj2
  rw [hg1] at e1
  rw [hg2] at e2
  have hj : j1 = j2 := by omega
  subst hj
  rw [← hg1, ← hg2]

/-- The indices of the built tasks are consecutive from the start
index. -/
theorem buildTasksGo_map_index :
    ∀ (refs : List String) (idx : Nat) (seen : List (String × Nat)),
      (buildTasksGo idx seen refs).map (fun t => t.index) =
        List.range' idx refs.length := by
  intro refs
  induction refs with
  | nil => intro idx seen; rfl
  | cons reference rest ih =>
    intro idx seen
    unfold buildTasksGo
    cases hsig : build_reference_signature reference (derive_title reference) with
    | some sig =>
      cases hfind : seen.find? (fun e => e.1 = sig) with
      | some e =>
        simp only [hsig, hfind, List.map_cons, ih, List.length_cons]
        rfl
      | none =>
        simp only [hsig, hfind, List.map_cons, ih, List.length_cons]
        rfl
    | none =>
      simp only [hsig, List.map_cons, ih, List.length_cons]
      rfl

/-- The tasks of a run carry the indices `1, …, n`. -/
theorem buildTasks_map_index (refs : List String) :
    (buildTasks refs).map (fun t => t.index) = List.range' 1 refs.length :=
  buildTasksGo_map_index refs 1 []

/-- Task indices are pairwise distinct. -/
theorem buildTasks_index_nodup (refs : List String) :
    ((buildTasks refs).map (fun t => t.index)).Nodup := by
  rw [buildTasks_map_index]
  exact List.nodup_range' 1 refs.length

/-- Task indices are positive. -/
theorem buildTasks_index_pos (refs : List String) :
    ∀ t ∈ buildTasks refs, 1 ≤ t.index := by
  intro t ht
  have hm : t.index ∈ (buildTasks refs).map (fun t => t.index) :=
    List.mem_map_of_mem _ ht
  rw [buildTasks_map_index] at hm
  exact (List.mem_range'_1.mp hm).1

/-- A completed first pass leaves a slot unchanged when no listed task
owns it. -/
theorem phase1_preserves_slot (world : Nat → Nat → AutoEnv) (dest : String)
    (slot : Nat) :
    ∀ (tasks : List ReferenceTask) (st st1 : Phase1State),
      phase1 world dest tasks st = Except.ok st1 →
      (∀ x ∈ tasks, x.index - 1 ≠ slot) →
      st1.res[slot]? = st.res[slot]? := by
  intro tasks
  induction tasks with
  | nil =>
    intro st st1 h hw
    unfold phase1 at h
    simp only [Except.ok.injEq] at h
    subst h
    rfl
  | cons task rest ih =>
    intro st st1 h hw
    unfold phase1 at h
    cases hdup : task.duplicate_of with
    | some k =>
      rw [hdup] at h
      dsimp only at h
      rw [ih _ st1 h (fun x hx => hw x (List.mem_cons_of_mem _ hx))]
      exact List.getElem?_set_ne (hw task (List.mem_cons_self _ _))
    | none =>
      rw [hdup] at h
      dsimp only at h
      cases hres : (downloadRun (world 1 task.index) task.reference
          task.output_name dest st.fs).result with
      | error e => rw [hres] at h; cases h
      | ok r =>
        rw [hres] at h
        dsimp only at h
        rw [ih _ st1 h (fun x hx => hw x (List.mem_cons_of_mem _ hx))]
        exact List.getElem?_set_ne (hw task (List.mem_cons_self _ _))

/-- A duplicate task's slot, at the end of the first pass, holds the
`dupResult` record built from its original's slot at processing time. -/
theorem phase1_dup_slot (world : Nat → Nat → AutoEnv) (dest : String) :
    ∀ (tasks : List ReferenceTask) (st st1 : Phase1State)
      (t : ReferenceTask) (k : Nat),
      phase1 world dest tasks st = Except.ok st1 →
      t ∈ tasks → t.duplicate_of = some k →
      ((tasks.map (fun x => x.index)).Nodup) →
      (∀ x ∈ tasks, 1 ≤ x.index) →
      t.index - 1 < st.res.length →
      ∃ orig, st1.res[t.index - 1]? = some (some (dupResult t k orig)) := by
  intro tasks
  induction tasks with
  | nil =>
    intro st st1 t k h hmem hdup hnd hpos hlen
    exact absurd hmem (List.not_mem_nil t)
  | cons task rest ih =>
    intro st st1 t k h hmem hdup hnd hpos hlen
    rcases List.mem_cons.mp hmem with rfl | hmem2
    · unfold phase1 at h
      rw [hdup] at h
      dsimp only at h
      have hw : ∀ x ∈ rest, x.index - 1 ≠ t.index - 1 := by
        intro x hx hxeq
        have hxpos := hpos x (List.mem_cons_of_mem _ hx)
        have htpos := hpos t (List.mem_cons_self _ _)
        have hxi : x.index = t.index := by omega
        have hxin : x.index ∈ rest.map (fun y => y.index) :=
          List.mem_map_of_mem _ hx
        rw [hxi] at hxin
        exact (List.nodup_cons.mp hnd).1 hxin
      exact ⟨_, by
        rw [phase1_preserves_slot world dest (t.index - 1) rest _ st1 h hw]
        exact List.getElem?_set_eq_of_lt _ hlen⟩
    · unfold phase1 at h
      cases hd0 : task.duplicate_of with
      | some k0 =>
        rw [hd0] at h
        dsimp only at h
        exact ih _ st1 t k h hmem2 hdup (List.nodup_cons.mp hnd).2
          (fun x hx => hpos x (List.mem_cons_of_mem _ hx))
          (by simpa using hlen)
      | none =>
        rw [hd0] at h
        dsimp only at h
        cases hres : (downloadRun (world 1 task.index) task.reference
            task.output_name dest st.fs).result with
        | error e => rw [hres] at h; cases h
        | ok r =>
          rw [hres] at h
          dsimp only at h
          exact ih _ st1 t k h hmem2 hdup (List.nodup_cons.mp hnd).2
            (fun x hx => hpos x (List.mem_cons_of_mem _ hx))
            (by simpa using hlen)

/-- Every retry candidate produced by the first pass is a non-duplicate
listed task at its own slot. -/
theorem phase1_cands (world : Nat → Nat → AutoEnv) (dest : String) :
    ∀ (tasks : List ReferenceTask) (st st1 : Phase1State),
      phase1 world dest tasks st = Except.ok st1 →
      ∀ q ∈ st1.cands, q ∈ st.cands ∨
        (q.2.1 ∈ tasks ∧ q.2.1.duplicate_of = none ∧
          q.1 = q.2.1.index - 1) := by
  intro tasks
  induction tasks with
  | nil =>
    intro st st1 h q hq
    unfold phase1 at h
    simp only [Except.ok.injEq] at h
    subst h
    exact Or.inl hq
  | cons task rest ih =>
    intro st st1 h q hq
    unfold phase1 at h
    cases hdup : task.duplicate_of with
    | some k =>
      rw [hdup] at h
      dsimp only at h
      rcases ih _ st1 h q hq with hin | ⟨hm, hd, hs⟩
      · exact Or.inl hin
      · exact Or.inr ⟨List.mem_cons_of_mem _ hm, hd, hs⟩
    | none =>
      rw [hdup] at h
      dsimp only at h
      cases hres : (downloadRun (world 1 task.index) task.reference
          task.output_name dest st.fs).result with
      | error e => rw [hres] at h; cases h
      | ok r =>
        rw [hres] at h
        dsimp only at h
        rcases ih _ st1 h q hq with hin | ⟨hm, hd, hs⟩
        · by_cases hsucc : r.success = true
          · rw [if_neg (by simp [hsucc])] at hin
            exact Or.inl hin
          · have hf : r.success = false := by
              cases hv : r.success with
              | true => exact absurd hv hsucc
              | false => rfl
            rw [if_pos (by simp [hf])] at hin
            rcases List.mem_append.mp hin with h1 | h2
            · exact Or.inl h1
            · rcases List.mem_singleton.mp h2 with rfl
              exact Or.inr ⟨List.mem_cons_self _ _, hdup, rfl⟩
        · exact Or.inr ⟨List.mem_cons_of_mem _ hm, hd, hs⟩

/-- The retry pass attempts exactly the non-duplicate candidates. -/
theorem phase2_attempts (world : Nat → Nat → AutoEnv) (dest : String) :
    ∀ (cands : List (Nat × ReferenceTask × DownloadResult))
      (st st' : Phase2State),
      phase2 world dest cands st = Except.ok st' →
      st'.attempts = st.attempts ++
        ((cands.filter (fun q => q.2.1.duplicate_of.isNone)).map
          (fun q => q.2.1.index)) := by
  intro cands
  induction cands with
  | nil =>
    intro st st' h
    unfold phase2 at h
    simp only [Except.ok.injEq] at h
    subst h
    simp
  | cons q rest ih =>
    obtain ⟨qslot, qtask, qfr⟩ := q
    intro st st' h
    unfold phase2 at h
    cases hqd : qtask.duplicate_of with
    | some k =>
      rw [hqd] at h
      rw [if_pos Option.isSome_some] at h
      rw [ih st st' h]
      simp [List.filter_cons, hqd]
    | none =>
      rw [hqd] at h
      rw [if_neg (by simp)] at h
      dsimp only at h
      cases hres : (downloadRun (world 2 qtask.index) qtask.reference
          qtask.output_name dest st.fs).result with
      | error e => rw [hres] at h; cases h
      | ok r2 =>
        rw [hres] at h
        dsimp only at h
        by_cases hsucc : r2.success = true
        · rw [if_pos hsucc] at h
          rw [ih _ st' h]
          simp [List.filter_cons, hqd, List.append_assoc]
        · rw [if_neg hsucc] at h
          rw [ih _ st' h]
          simp [List.filter_cons, hqd, List.append_assoc]

/-- Every pending manual-fallback entry is a non-duplicate listed task at
its own position. -/
theorem collectPending_mem :
    ∀ (tasks : List ReferenceTask) (res : List (Option DownloadResult))
      (idx : Nat) (q : Nat × ReferenceTask × DownloadResult),
      q ∈ collectPending idx tasks res →
      ∃ j, tasks[j]? = some q.2.1 ∧ q.1 = idx + j ∧
        q.2.1.duplicate_of = none := by
  intro tasks
  induction tasks with
  | nil => intro res idx q hq; simp [collectPending] at hq
  | cons task ts ih =>
    intro res idx q hq
    cases res with
    | nil => simp [collectPending] at hq
    | cons r rs =>
      unfold collectPending at hq
      dsimp only at hq
      by_cases hd : task.duplicate_of.isSome = true
      · rw [if_pos hd] at hq
        obtain ⟨j, hj1, hj2, hj3⟩ := ih rs (idx + 1) q hq
        exact ⟨j + 1, by simpa using hj1, by omega, hj3⟩
      · rw [if_neg hd] at hq
        have hdn : task.duplicate_of = none := by
          cases hv : task.duplicate_of with
          | none => rfl
          | some k => rw [hv] at hd; exact absurd Option.isSome_some hd
        cases r with
        | none =>
          dsimp only at hq
          obtain ⟨j, hj1, hj2, hj3⟩ := ih rs (idx + 1) q hq
          exact ⟨j + 1, by simpa using hj1, by omega, hj3⟩
        | some dr =>
          dsimp only at hq
          by_cases hsucc : dr.success = true
          · rw [if_neg (by simp [hsucc])] at hq
            obtain ⟨j, hj1, hj2, hj3⟩ := ih rs (idx + 1) q hq
            exact ⟨j + 1, by simpa using hj1, by omega, hj3⟩
          · have hf : dr.success = false := by
              cases hv : dr.success with
              | true => exact absurd hv hsucc
              | false => rfl
            rw [if_pos (by simp [hf])] at hq
            rcases List.mem_cons.mp hq with rfl | hq2
            · exact ⟨0, by simp, by omega, hdn⟩
            · obtain ⟨j, hj1, hj2, hj3⟩ := ih rs (idx + 1) q hq2
              exact ⟨j + 1, by simpa using hj1, by omega, hj3⟩

/-- The manual loop attempts every pending task once, in order. -/
theorem manualFold_attempts (menv : Nat → ManualEnv) (autoOpen : Bool)
    (dest : String) :
    ∀ (pending : List (Nat × ReferenceTask × DownloadResult)) (ack : Bool)
      (st : ManualPhaseOut),
      (manualFold menv autoOpen dest pending ack st).attempts =
        st.attempts ++ pending.map (fun q => q.2.1.index) := by
  intro pending
  induction pending with
  | nil => intro ack st; simp [manualFold]
  | cons q rest ih =>
    obtain ⟨qslot, qtask, qfr⟩ := q
    intro ack st
    unfold manualFold
    dsimp only
    rw [ih _ _]
    simp [List.append_assoc]

/-- The manual loop leaves a slot unchanged when no pending entry owns
it. -/
theorem manualFold_preserves_slot (menv : Nat → ManualEnv) (autoOpen : Bool)
    (dest : String) (slot : Nat) :
    ∀ (pending : List (Nat × ReferenceTask × DownloadResult)) (ack : Bool)
      (st : ManualPhaseOut),
      (∀ q ∈ pending, q.1 ≠ slot) →
      (manualFold menv autoOpen dest pending ack st).res[slot]? =
        st.res[slot]? := by
  intro pending
  induction pending with
  | nil => intro ack st hw; simp [manualFold]
  | cons q rest ih =>
    obtain ⟨qslot, qtask, qfr⟩ := q
    intro ack st hw
    unfold manualFold
    dsimp only
    rw [ih _ _ (fun p hp => hw p (List.mem_cons_of_mem _ hp))]
    exact List.getElem?_set_ne (hw (qslot, qtask, qfr) (List.mem_cons_self _ _))

/-- A left fold of slot writes leaves an unowned slot unchanged. -/
theorem foldl_set_preserves_slot (slot : Nat)
    (f : Nat × ReferenceTask × DownloadResult → Option DownloadResult) :
    ∀ (pending : List (Nat × ReferenceTask × DownloadResult))
      (res : List (Option DownloadResult)),
      (∀ q ∈ pending, q.1 ≠ slot) →
      (pending.foldl (fun acc p => acc.set p.1 (f p)) res)[slot]? =
        res[slot]? := by
  intro pending
  induction pending with
  | nil => intro res hw; rfl
  | cons q rest ih =>
    intro res hw
    rw [List.foldl_cons]
    rw [ih _ (fun p hp => hw p (List.mem_cons_of_mem _ hp))]
    exact List.getElem?_set_ne (hw q (List.mem_cons_self _ _))

/-- The manual-fallback phase leaves a slot unchanged when no pending
entry owns it. -/
theorem runManualFallback_preserves_slot (menv : Nat → ManualEnv)
    (autoOpen : Bool) (mkdirErr : Option String) (tasks : List ReferenceTask)
    (res : List (Option DownloadResult)) (dest : String) (fs : List String)
    (slot : Nat)
    (hw : ∀ q ∈ collectPending 0 tasks res, q.1 ≠ slot) :
    (runManualFallback menv autoOpen mkdirErr tasks res dest fs).res[slot]? =
      res[slot]? := by
  unfold runManualFallback
  dsimp only
  by_cases hp : (collectPending 0 tasks res).isEmpty = true
  · rw [if_pos hp]
  · rw [if_neg hp]
    cases mkdirErr with
    | some e =>
      dsimp only
      exact foldl_set_preserves_slot slot
        (fun p => some ⟨p.2.2.target, false,
          appendManualNote p.2.2.message
            ("Manual fallback unavailable (" ++ e ++ ")"), none, none⟩)
        (collectPending 0 tasks res) res hw
    | none =>
      dsimp only
      exact manualFold_preserves_slot menv autoOpen dest slot _ false _ hw

/-- Every manual-phase attempt index belongs to a pending entry. -/
theorem runManualFallback_attempts_mem (menv : Nat → ManualEnv)
    (autoOpen : Bool) (mkdirErr : Option String) (tasks : List ReferenceTask)
    (res : List (Option DownloadResult)) (dest : String) (fs : List String)
    (i : Nat)
    (hi : i ∈ (runManualFallback menv autoOpen mkdirErr tasks res dest
      fs).attempts) :
    ∃ q ∈ collectPending 0 tasks res, i = q.2.1.index := by
  unfold runManualFallback at hi
  dsimp only at hi
  by_cases hp : (collectPending 0 tasks res).isEmpty = true
  · rw [if_pos hp] at hi
    simp at hi
  · rw [if_neg hp] at hi
    cases mkdirErr with
    | some e =>
      dsimp only at hi
      simp at hi
    | none =>
      dsimp only at hi
      rw [manualFold_attempts menv autoOpen dest _ false _] at hi
      simp only [List.nil_append] at hi
      obtain ⟨q, hq, hqi⟩ := List.mem_map.mp hi
      exact ⟨q, hq, hqi.symm⟩

/-- C2 counterexample: two references share a DOI; the original fails its
first attempt and succeeds on retry, but the duplicate's final result
keeps the stale Phase-1 failure — it does not inherit the original's
eventual success, and the two final results do not share a file path. -/
theorem c2_counterexample :
    ((runDownloads
        ["Alpha beta gamma 10.1000/xyz", "Other words here 10.1000/xyz"]
        (Except.ok ())
        (fun attempt _ =>
          if attempt = 1 then { firstResult := FirstResultStep.timeout }
          else {})
        (fun _ => idleManualEnv)
        ⟨false, false, "dest", false, none, none, none⟩ []).results.map
      (fun r => (r.success, r.message, r.destination.isSome))) =
      [(true, "Downloaded on retry", true),
       (false,
        "Duplicate of entry 1; original failed: No Google Scholar results were found",
        false)] ∧
    ((runDownloads
        ["Alpha beta gamma 10.1000/xyz", "Other words here 10.1000/xyz"]
        (Except.ok ())
        (fun attempt _ =>
          if attempt = 1 then { firstResult := FirstResultStep.timeout }
          else {})
        (fun _ => idleManualEnv)
        ⟨false, false, "dest", false, none, none, none⟩ []).tasks.map
      (fun t => t.duplicate_of)) = [none, some 1] := by decide

/-- C2 (amended): a reference marked as a duplicate never undergoes an
independent retrieval attempt in any phase (first pass, retry, or manual
fallback); but its final result inherits only the Phase-1 snapshot of its
original's slot: after all three phases the duplicate's slot still holds
the `dupResult` record built during the first pass, even if the original
later succeeded on retry or manually. -/
theorem c2_duplicate_amended :
    (∀ (refs : List String) (world : Nat → Nat → AutoEnv)
        (menv : Nat → ManualEnv) (cfg : RunConfig) (fs0 : List String)
        (t : ReferenceTask) (k : Nat),
        t ∈ (runDownloads refs (Except.ok ()) world menv cfg fs0).tasks →
        t.duplicate_of = some k →
        (runDownloads refs (Except.ok ()) world menv cfg fs0).aborted =
          none →
        t.index ∉
            (runDownloads refs (Except.ok ()) world menv cfg
              fs0).phase1Attempts ∧
        t.index ∉
            (runDownloads refs (Except.ok ()) world menv cfg
              fs0).phase2Attempts ∧
        t.index ∉
            (runDownloads refs (Except.ok ()) world menv cfg
              fs0).phase3Attempts) ∧
    (∀ (refs : List String) (world : Nat → Nat → AutoEnv)
        (menv : Nat → ManualEnv) (dest : String) (autoOpen : Bool)
        (mkdirErr : Option String) (fs0 : List String)
        (st1 : Phase1State) (st2 : Phase2State) (t : ReferenceTask) (k : Nat),
        t ∈ buildTasks refs → t.duplicate_of = some k →
        phase1 world dest (buildTasks refs)
          ⟨List.replicate (buildTasks refs).length none, [], [], fs0⟩ =
            Except.ok st1 →
        phase2 world dest st1.cands ⟨st1.res, [], [], st1.fs⟩ =
          Except.ok st2 →
        ∃ orig,
          (runManualFallback menv autoOpen mkdirErr (buildTasks refs)
            st2.res dest st2.fs).res[t.index - 1]? =
              some (some (dupResult t k orig))) := by
  constructor
  · intro refs world menv cfg fs0 t k hmem hdup habort
    cases hp1 : phase1 world cfg.destination (buildTasks refs)
        ⟨List.replicate (buildTasks refs).length none, [], [], fs0⟩ with
    | error est =>
      obtain ⟨e, st⟩ := est
      rw [runDownloads_p1_error_aborted refs world menv cfg fs0 e st hp1]
        at habort
      cases habort
    | ok st1 =>
      cases hp2 : phase2 world cfg.destination st1.cands
          ⟨st1.res, [], [], st1.fs⟩ with
      | error est =>
        obtain ⟨e, st2⟩ := est
        rw [runDownloads_p2_error_aborted refs world menv cfg fs0 st1 e st2
          hp1 hp2] at habort
        cases habort
      | ok st2 =>
        rw [runDownloads_ok_outcome refs world menv cfg fs0 st1 st2 hp1 hp2]
          at hmem ⊢
        dsimp only at hmem ⊢
        refine ⟨?_, ?_, ?_⟩
        · rw [phase1_attempts world cfg.destination _ _ st1 hp1]
          intro hin
          rcases List.mem_append.mp hin with h0 | hmap
          · simp at h0
          · obtain ⟨x, hx, hxi⟩ := List.mem_map.mp hmap
            obtain ⟨hxm, hxp⟩ := List.mem_filter.mp hx
            have hxt := buildTasks_index_inj refs x t hxm hmem hxi
            rw [hxt, hdup] at hxp
            simp at hxp
        · rw [phase2_attempts world cfg.destination _ _ st2 hp2]
          intro hin
          rcases List.mem_append.mp hin with h0 | hmap
          · simp at h0
          · obtain ⟨q, hq, hqi⟩ := List.mem_map.mp hmap
            obtain ⟨hqc, hqp⟩ := List.mem_filter.mp hq
            rcases phase1_cands world cfg.destination _ _ st1 hp1 q hqc with
              hq0 | ⟨hqm, hqd, hqs⟩
            · simp at hq0
            · have hqt := buildTasks_index_inj refs q.2.1 t hqm hmem hqi
              rw [hqt, hdup] at hqd
              cases hqd
        · by_cases hen : cfg.manualEnabled = true
          · rw [if_pos hen]
            intro hin
            obtain ⟨q, hq, hqi⟩ := runManualFallback_attempts_mem menv
              cfg.manualAuto cfg.downloadsMkdirErr (buildTasks refs) st2.res
              cfg.destination st2.fs t.index hin
            obtain ⟨j, hj1, hj2, hdn⟩ :=
              collectPending_mem (buildTasks refs) st2.res 0 q hq
            have hqmem : q.2.1 ∈ buildTasks refs := List.getElem?_mem hj1
            have hqt := buildTasks_index_inj refs q.2.1 t hqmem hmem hqi.symm
            rw [hqt, hdup] at hdn
            cases hdn
          · rw [if_neg hen]
            intro hin
            simp at hin
  · intro refs world menv dest autoOpen mkdirErr fs0 st1 st2 t k hmem hdup
      hp1 hp2
    obtain ⟨j, hjlen, hjget⟩ := List.mem_iff_getElem.mp hmem
    have hidx : t.index = 1 + j := by
      have e1 : (buildTasks refs)[j].index = 1 + j :=
        buildTasksGo_index refs 1 [] j hjlen
      rw [hjget] at e1
      exact e1
    have hlen0 : t.index - 1 <
        (List.replicate (buildTasks refs).length
          (none : Option DownloadResult)).length := by
      rw [List.length_replicate]
      omega
    obtain ⟨orig, hslot1⟩ := phase1_dup_slot world dest (buildTasks refs)
      ⟨List.replicate (buildTasks refs).length none, [], [], fs0⟩ st1 t k hp1
      hmem hdup (buildTasks_index_nodup refs) (buildTasks_index_pos refs)
      hlen0
    have hq2 : ∀ q ∈ st1.cands, q.2.1.duplicate_of = none →
        q.1 ≠ t.index - 1 := by
      intro q hq hqd hqeq
      rcases phase1_cands world dest _ _ st1 hp1 q hq with hq0 | ⟨hqm, _, hqs⟩
      · simp at hq0
      · have hqpos := buildTasks_index_pos refs q.2.1 hqm
        have htpos := buildTasks_index_pos refs t hmem
        have hqi : q.2.1.index = t.index := by omega
        have hqt := buildTasks_index_inj refs q.2.1 t hqm hmem hqi
        rw [hqt, hdup] at hqd
        cases hqd
    have hw : ∀ q ∈ collectPending 0 (buildTasks refs) st2.res,
        q.1 ≠ t.index - 1 := by
      intro q hq hqeq
      obtain ⟨j2, hj1, hj2, hdn⟩ :=
        collectPending_mem (buildTasks refs) st2.res 0 q hq
      have hj2j : j2 = j := by omega
      rw [hj2j] at hj1
      rw [List.getElem?_eq_getElem hjlen, hjget] at hj1
      have : q.2.1 = t := by
        injection hj1 with hh
        exact hh.symm
      rw [this, hdup] at hdn
      cases hdn
    refine ⟨orig, ?_⟩
    rw [runManualFallback_preserves_slot menv autoOpen mkdirErr
      (buildTasks refs) st2.res dest st2.fs (t.index - 1) hw]
    rw [phase2_preserves_slot world dest (t.index - 1) st1.cands
      ⟨st1.res, [], [], st1.fs⟩ st2 hp2 hq2]
    exact hslot1

/-- Witness for C2 on the counterexample's scenario: the duplicate's slot
after all three phases holds the Phase-1 duplicate record even though the
original succeeded on retry. -/
theorem c2_duplicate_amended_witness :
    ∃ orig,
      (runManualFallback (fun _ => idleManualEnv) false none
        (buildTasks
          ["Alpha beta gamma 10.1000/xyz", "Other words here 10.1000/xyz"])
        [some ⟨"Alpha beta gamma 10.1000/xyz", true, "Downloaded on retry",
            some "dest/Alpha_beta_gamma_10.1000_xyz.pdf",
            some "Alpha_beta_gamma_10.1000_xyz"⟩,
         some ⟨"Other words here 10.1000/xyz", false,
            "Duplicate of entry 1; original failed: No Google Scholar results were found",
            none, none⟩]
        "dest" ["dest/Alpha_beta_gamma_10.1000_xyz.pdf"]).res[2 - 1]? =
          some (some (dupResult
            ⟨2, "Other words here 10.1000/xyz",
              "Other_words_here_10.1000_xyz", "Other words here 10.1000/xyz",
              some 1⟩ 1 orig)) :=
  c2_duplicate_amended.2
    ["Alpha beta gamma 10.1000/xyz", "Other words here 10.1000/xyz"]
    (fun attempt _ =>
      if attempt = 1 then { firstResult := FirstResultStep.timeout } else {})
    (fun _ => idleManualEnv) "dest" false none []
    ⟨[some ⟨"Alpha beta gamma 10.1000/xyz", false,
        "No Google Scholar results were found", none, none⟩,
      some ⟨"Other words here 10.1000/xyz", false,
        "Duplicate of entry 1; original failed: No Google Scholar results were found",
        none, none⟩],
      [(0, ⟨1, "Alpha beta gamma 10.1000/xyz",
        "Alpha_beta_gamma_10.1000_xyz", "Alpha beta gamma 10.1000/xyz",
        none⟩,
        ⟨"Alpha beta gamma 10.1000/xyz", false,
          "No Google Scholar results were found", none, none⟩)],
      [1], []⟩
    ⟨[some ⟨"Alpha beta gamma 10.1000/xyz", true, "Downloaded on retry",
        some "dest/Alpha_beta_gamma_10.1000_xyz.pdf",
        some "Alpha_beta_gamma_10.1000_xyz"⟩,
      some ⟨"Other words here 10.1000/xyz", false,
        "Duplicate of entry 1; original failed: No Google Scholar results were found",
        none, none⟩],
      [1],
      [⟨1, "Alpha beta gamma 10.1000/xyz", "Alpha_beta_gamma_10.1000_xyz",
        "Alpha beta gamma 10.1000/xyz", none⟩],
      ["dest/Alpha_beta_gamma_10.1000_xyz.pdf"]⟩
    ⟨2, "Other words here 10.1000/xyz", "Other_words_here_10.1000_xyz",
      "Other words here 10.1000/xyz", some 1⟩ 1 (by decide) (by decide)
    (by decide) (by decide)

/-- C3 counterexample: a reference that fails its first attempt and
succeeds on retry ends with message `"Downloaded on retry"`, not
`"succeeded on retry"` as the specification states. -/
theorem c3_counterexample :
    ((runDownloads ["Alpha beta gamma"] (Except.ok ())
        (fun attempt _ =>
          if attempt = 1 then { firstResult := FirstResultStep.timeout }
          else {})
        (fun _ => idleManualEnv)
        ⟨false, false, "dest", false, none, none, none⟩ []).results.map
      (fun r => (r.success, r.message))) = [(true, "Downloaded on retry")] ∧
    "Downloaded on retry" ≠ "succeeded on retry" := by decide

/-- C3 (amended): when both reasons are non-empty the merged failure
message has exactly the form
`initial attempt: <first reason>; retry attempt: <second reason>`; and a
non-duplicate retry candidate whose slot no later candidate writes ends
the retry pass with its own retry result in that slot — message
`"Downloaded on retry"` (not `"succeeded on retry"`) if the retry
succeeded, the merged failure messages if it failed again. -/
theorem c3_retry_amended :
    (∀ a b : String, a ≠ "" → b ≠ "" →
        mergeFailureMessages a b =
          "initial attempt: " ++ a ++ "; retry attempt: " ++ b) ∧
    (∀ (world : Nat → Nat → AutoEnv) (dest : String)
        (pre post : List (Nat × ReferenceTask × DownloadResult)) (slot : Nat)
        (task : ReferenceTask) (firstResult : DownloadResult)
        (st st' : Phase2State),
        phase2 world dest (pre ++ (slot, task, firstResult) :: post) st =
          Except.ok st' →
        task.duplicate_of = none →
        slot < st.res.length →
        (∀ q ∈ post, q.2.1.duplicate_of = none → q.1 ≠ slot) →
        ∃ r2 : DownloadResult,
          st'.res[slot]? =
            some (some (if r2.success then
              { r2 with message := "Downloaded on retry" }
            else
              { r2 with message :=
                mergeFailureMessages firstResult.message r2.message }))) :=
  ⟨mergeFailureMessages_both, phase2_slot⟩

/-- Witness for C3: one candidate whose retry also fails; its slot holds
the merged two-part message. -/
theorem c3_retry_amended_witness :
    ∃ r2 : DownloadResult,
      (⟨[some ⟨"Ref one", false,
          "initial attempt: boom; retry attempt: No Google Scholar results were found",
          none, none⟩], [1], [], []⟩ : Phase2State).res[0]? =
        some (some (if r2.success then
          { r2 with message := "Downloaded on retry" }
        else
          { r2 with message := mergeFailureMessages "boom" r2.message })) :=
  c3_retry_amended.2 (fun _ _ => { firstResult := FirstResultStep.timeout })
    "dest" [] [] 0 ⟨1, "Ref one", "out", "p", none⟩
    ⟨"Ref one", false, "boom", none, none⟩
    ⟨[some ⟨"Ref one", false, "boom", none, none⟩], [], [], []⟩
    ⟨[some ⟨"Ref one", false,
        "initial attempt: boom; retry attempt: No Google Scholar results were found",
        none, none⟩], [1], [], []⟩
    (by decide) rfl (by decide) (by simp)

/-- C8 counterexample: with a working initialization, a `shutil.move`
failure during the first reference escapes `download`, aborts the whole
run before the second reference is ever attempted, and both result slots
receive the move error — so not every non-initialization error is
per-reference and non-fatal. -/
theorem c8_counterexample :
    (runDownloads ["Ref one", "Ref two words"] (Except.ok ())
        (fun _ _ => { moveErr := some "move failed" }) (fun _ => idleManualEnv)
        ⟨false, false, "dest", false, none, none, none⟩ []).aborted =
      some "move failed" ∧
    (runDownloads ["Ref one", "Ref two words"] (Except.ok ())
        (fun _ _ => { moveErr := some "move failed" }) (fun _ => idleManualEnv)
        ⟨false, false, "dest", false, none, none, none⟩ []).phase1Attempts =
      [1] ∧
    ((runDownloads ["Ref one", "Ref two words"] (Except.ok ())
        (fun _ _ => { moveErr := some "move failed" }) (fun _ => idleManualEnv)
        ⟨false, false, "dest", false, none, none, none⟩ []).results.map
          (fun r => r.message)) = ["move failed", "move failed"] := by
  decide

/-- C8 (amended): an initialization failure terminates the run and every
reference — none has been processed yet — receives a single synthetic
failure result carrying the initialization error message; and whenever
the run does not abort, the first pass attempts exactly the
non-duplicate references, in order.  (Escaping exceptions in a download
attempt — e.g. a failed `shutil.move` — are also run-fatal, as the
counterexample shows; only the recognised per-step errors are turned
into per-reference failure results.) -/
theorem c8_init_error_amended :
    (∀ (refs : List String) (e : String) (world : Nat → Nat → AutoEnv)
        (menv : Nat → ManualEnv) (cfg : RunConfig) (fs0 : List String)
        (j : Nat) (hj : j < (buildTasks refs).length),
        (runDownloads refs (Except.error e) world menv cfg fs0).aborted =
          some e ∧
        (runDownloads refs (Except.error e) world menv cfg fs0).results[j]? =
          some ⟨(buildTasks refs).get ⟨j, hj⟩ |>.reference,
            false, e, none, none⟩) ∧
    (∀ (refs : List String) (world : Nat → Nat → AutoEnv)
        (menv : Nat → ManualEnv) (cfg : RunConfig) (fs0 : List String),
        (runDownloads refs (Except.ok ()) world menv cfg fs0).aborted = none →
        (runDownloads refs (Except.ok ()) world menv cfg fs0).phase1Attempts =
          ((buildTasks refs).filter (fun t => t.duplicate_of.isNone)).map
            (fun t => t.index)) := by
  constructor
  · intro refs e world menv cfg fs0 j hj
    unfold runDownloads
    dsimp only
    have hne : buildTasks refs ≠ [] := List.ne_nil_of_length_pos (by omega)
    rw [isEmpty_false_of_ne_nil hne]
    simp only [Bool.false_eq_true, if_false]
    refine ⟨by simp, ?_⟩
    rw [fillUnfilled_get? (buildTasks refs) e
      (List.replicate (buildTasks refs).length none) 0 j]
    rw [replicate_get? none (buildTasks refs).length j hj]
    have hget : (buildTasks refs)[0 + j]? =
        some ((buildTasks refs).get ⟨j, hj⟩) := by
      rw [Nat.zero_add]
      exact List.getElem?_eq_getElem hj
    rw [Option.map_some']
    rw [hget]
  · intro refs world menv cfg fs0 h
    cases hp1 : phase1 world cfg.destination (buildTasks refs)
        ⟨List.replicate (buildTasks refs).length none, [], [], fs0⟩ with
    | error est =>
      obtain ⟨e, st⟩ := est
      rw [runDownloads_p1_error_aborted refs world menv cfg fs0 e st hp1] at h
      cases h
    | ok st1 =>
      cases hp2 : phase2 world cfg.destination st1.cands
          ⟨st1.res, [], [], st1.fs⟩ with
      | error est =>
        obtain ⟨e, st2⟩ := est
        rw [runDownloads_p2_error_aborted refs world menv cfg fs0 st1 e st2
          hp1 hp2] at h
        cases h
      | ok st2 =>
        rw [runDownloads_ok_outcome refs world menv cfg fs0 st1 st2 hp1 hp2]
        dsimp only
        simpa using phase1_attempts world cfg.destination (buildTasks refs)
          ⟨List.replicate (buildTasks refs).length none, [], [], fs0⟩ st1 hp1

/-- Witness for C8: one reference, failed initialization; its slot holds
the synthetic failure with the initialization message. -/
theorem c8_init_error_amended_witness :
    (runDownloads ["Ref one"] (Except.error "driver init failed")
        (fun _ _ => {}) (fun _ => idleManualEnv)
        ⟨false, false, "dest", false, none, none, none⟩ []).results[0]? =
      some ⟨"Ref one", false, "driver init failed", none, none⟩ :=
  (c8_init_error_amended.1 ["Ref one"] "driver init failed" (fun _ _ => {})
    (fun _ => idleManualEnv) ⟨false, false, "dest", false, none, none, none⟩
    [] 0 (by decide)).2

/-- C6: for every reference record whose stripped text is non-empty, the
query builder returns a non-empty string; it cannot fail, only degrade to
a lower-quality query (a DOI, a URL, or the assembled free-text
components, whose first entry is the normalized reference text). -/
theorem c6_query_nonempty (reference : String)
    (h : strip_reference_lead reference ≠ "") :
    build_search_query reference ≠ "" :=
  (mk_ne_empty_iff _).mpr
    (buildSearchQueryL_ne_nil reference.data ((mk_ne_empty_iff _).mp h))

/-- Witness for C6 at a concrete reference. -/
theorem c6_query_nonempty_witness :
    build_search_query "[1] Smith J. Title One. J Sci. 2020;12:1-5." ≠ "" :=
  c6_query_nonempty "[1] Smith J. Title One. J Sci. 2020;12:1-5." (by decide)

/-- The signature is `none` exactly when the lead-stripped reference is
empty (list level). -/
theorem buildReferenceSignatureL_none_iff (reference title : List Char) :
    buildReferenceSignatureL reference title = none ↔
      stripReferenceLeadL reference = [] := by
  constructor
  · intro h
    by_contra hne
    unfold buildReferenceSignatureL at h
    dsimp only at h
    rw [isEmpty_false_of_ne_nil hne] at h
    simp only [Bool.false_eq_true, if_false] at h
    cases hdoi : doiSearch (stripReferenceLeadL reference) with
    | some m => simp [hdoi] at h
    | none =>
      simp only [hdoi] at h
      cases hurl : urlSearch (stripReferenceLeadL reference) with
      | some m => simp [hurl] at h
      | none =>
        simp only [hurl] at h
        have hX := normalized_ne_nil reference hne
        have hXl : lowerL (stripL (collapseWsL (stripReferenceLeadL reference))) ≠ [] := by
          intro hm
          exact hX (by simpa [lowerL] using hm)
        by_cases ht :
            (lowerL (stripL (collapseWsL title))).isEmpty = true
        · rw [ht] at h
          simp only [Bool.not_true, Bool.false_eq_true, if_false] at h
          rw [isEmpty_false_of_ne_nil hXl] at h
          simp at h
        · rw [Bool.not_eq_true] at ht
          rw [ht] at h
          simp at h
  · intro h
    unfold buildReferenceSignatureL
    dsimp only
    rw [h]
    rfl

/-- A task without a signature is never marked a duplicate. -/
theorem buildTasksGo_no_sig_no_dup :
    ∀ (refs : List String) (idx : Nat) (seen : List (String × Nat))
      (t : ReferenceTask), t ∈ buildTasksGo idx seen refs →
      taskSignature t = none → t.duplicate_of = none := by
  intro refs
  induction refs with
  | nil => intro idx seen t ht; simp [buildTasksGo] at ht
  | cons reference rest ih =>
    intro idx seen t ht hsigt
    unfold buildTasksGo at ht
    cases hsig : build_reference_signature reference (derive_title reference) with
    | some sig =>
      cases hfind : seen.find? (fun e => e.1 = sig) with
      | some e =>
        simp only [hsig, hfind] at ht
        rcases List.mem_cons.mp ht with rfl | hmem
        · exact absurd hsigt (by simp [taskSignature, hsig])
        · exact ih (idx + 1) seen t hmem hsigt
      | none =>
        simp only [hsig, hfind] at ht
        rcases List.mem_cons.mp ht with rfl | hmem
        · rfl
        · exact ih (idx + 1) ((sig, idx) :: seen) t hmem hsigt
    | none =>
      simp only [hsig] at ht
      rcases List.mem_cons.mp ht with rfl | hmem
      · rfl
      · exact ih (idx + 1) seen t hmem hsigt

/-- A duplicate mark points either at an index already registered in
`seen` or at an in-run task that has a signature. -/
theorem buildTasksGo_dup_source :
    ∀ (refs : List String) (idx : Nat) (seen : List (String × Nat))
      (t2 : ReferenceTask) (k : Nat), t2 ∈ buildTasksGo idx seen refs →
      t2.duplicate_of = some k →
      (∃ s, (s, k) ∈ seen) ∨
        ∃ t1, t1 ∈ buildTasksGo idx seen refs ∧ t1.index = k ∧
          taskSignature t1 ≠ none := by
  intro refs
  induction refs with
  | nil => intro idx seen t2 k ht; simp [buildTasksGo] at ht
  | cons reference rest ih =>
    intro idx seen t2 k ht hdup
    unfold buildTasksGo at ht ⊢
    cases hsig : build_reference_signature reference (derive_title reference) with
    | some sig =>
      cases hfind : seen.find? (fun e => e.1 = sig) with
      | some e =>
        obtain ⟨s0, k0⟩ := e
        simp only [hsig, hfind] at ht ⊢
        rcases List.mem_cons.mp ht with rfl | hmem
        · simp only [Option.some.injEq] at hdup
          subst hdup
          exact Or.inl ⟨s0, List.mem_of_find?_eq_some hfind⟩
        · rcases ih (idx + 1) seen t2 k hmem hdup with hl | ⟨t1, hmem1, hik, hsig1⟩
          · exact Or.inl hl
          · exact Or.inr ⟨t1, List.mem_cons_of_mem _ hmem1, hik, hsig1⟩
      | none =>
        simp only [hsig, hfind] at ht ⊢
        rcases List.mem_cons.mp ht with rfl | hmem
        · simp at hdup
        · rcases ih (idx + 1) ((sig, idx) :: seen) t2 k hmem hdup with
            ⟨s, hs⟩ | ⟨t1, hmem1, hik, hsig1⟩
          · rcases List.mem_cons.mp hs with heq | hmem2
            · have hk : k = idx := congrArg Prod.snd heq
              subst hk
              refine Or.inr ⟨_, List.mem_cons_self _ _, rfl, ?_⟩
              simp [taskSignature, hsig]
            · exact Or.inl ⟨s, hmem2⟩
          · exact Or.inr ⟨t1, List.mem_cons_of_mem _ hmem1, hik, hsig1⟩
    | none =>
      simp only [hsig] at ht ⊢
      rcases List.mem_cons.mp ht with rfl | hmem
      · simp at hdup
      · rcases ih (idx + 1) seen t2 k hmem hdup with hl | ⟨t1, hmem1, hik, hsig1⟩
        · exact Or.inl hl
        · exact Or.inr ⟨t1, List.mem_cons_of_mem _ hmem1, hik, hsig1⟩

/-- The signature is `none` exactly when the lead-stripped reference is
empty (string level). -/
theorem build_reference_signature_none_iff (reference title : String) :
    build_reference_signature reference title = none ↔
      strip_reference_lead reference = "" := by
  constructor
  · intro h
    have hl : buildReferenceSignatureL reference.data title.data = none := by
      unfold build_reference_signature at h
      cases hx : buildReferenceSignatureL reference.data title.data with
      | none => rfl
      | some v => rw [hx] at h; cases h
    exact String.ext ((buildReferenceSignatureL_none_iff _ _).mp hl)
  · intro h
    have hl : stripReferenceLeadL reference.data = [] := congrArg String.data h
    unfold build_reference_signature
    rw [(buildReferenceSignatureL_none_iff _ _).mpr hl]
    rfl

/-- C10: `build_reference_signature` returns `none` exactly when the
reference, after stripping its numbering lead, is empty; a task without a
signature is never marked a duplicate; and every duplicate mark points at
a task that does have a signature, so a signatureless reference never
causes a later record to be marked its duplicate. -/
theorem c10_signature_dedup :
    (∀ reference title : String,
        build_reference_signature reference title = none ↔
          strip_reference_lead reference = "") ∧
    (∀ (refs : List String) (t : ReferenceTask), t ∈ buildTasks refs →
        taskSignature t = none → t.duplicate_of = none) ∧
    (∀ (refs : List String) (t1 t2 : ReferenceTask),
        t1 ∈ buildTasks refs → t2 ∈ buildTasks refs →
        t2.duplicate_of = some t1.index → taskSignature t1 ≠ none) := by
  refine ⟨build_reference_signature_none_iff, ?_, ?_⟩
  · intro refs t hmem hsig
    exact buildTasksGo_no_sig_no_dup refs 1 [] t hmem hsig
  · intro refs t1 t2 h1 h2 hdup
    rcases buildTasksGo_dup_source refs 1 [] t2 t1.index h2 hdup with
      ⟨s, hs⟩ | ⟨t0, hm0, hi0, hs0⟩
    · simp at hs
    · have h01 := buildTasks_index_inj refs t0 t1 hm0 h1 hi0
      exact h01 ▸ hs0

/-- Witness for C10: two references sharing a DOI, the second marked a
duplicate of the first, whose signature is indeed present. -/
theorem c10_signature_dedup_witness :
    taskSignature
      ((buildTasks ["Alpha beta 10.1000/x", "Gamma delta 10.1000/x"]).get
        ⟨0, by decide⟩) ≠ none :=
  c10_signature_dedup.2.2 ["Alpha beta 10.1000/x", "Gamma delta 10.1000/x"]
    ((buildTasks ["Alpha beta 10.1000/x", "Gamma delta 10.1000/x"]).get
      ⟨0, by decide⟩)
    ((buildTasks ["Alpha beta 10.1000/x", "Gamma delta 10.1000/x"]).get
      ⟨1, by decide⟩)
    (by decide) (by decide) (by decide)

/-- Witness for C7 at the counterexample's concrete inputs. -/
theorem c7_aggregate_amended_witness :
    "d/missing_pdfs_1.txt" ∉
      (aggregateResults ["Ref one"]
        [⟨1, "Ref one", "reference_001", "Ref one", none⟩]
        [⟨"Ref one", false, "msg", none, none⟩] [] []
        { manualEnabled := false, manualAuto := false, destination := "d",
          mergerAvailable := false } []).2 :=
  (c7_aggregate_amended ["Ref one"]
    [⟨1, "Ref one", "reference_001", "Ref one", none⟩]
    [⟨"Ref one", false, "msg", none, none⟩] [] []
    { manualEnabled := false, manualAuto := false, destination := "d",
      mergerAvailable := false } []).2.1 "d/missing_pdfs_1.txt" (by decide)

end FetchPdfs
